import Mathlib

/-!
Verification of the MTP device/content-tree abstraction of `nx_mtp_sender`
(`src/mtp/linux_access.py` and `src/mtp/win_access.py`).

The Python modules are shallowly embedded: every function under scrutiny is
translated into an executable Lean definition over explicit state values
(directory trees for the gvfs mount, flat object tables for the libmtp and
Windows-COM backends).  Backend primitives that live outside `src/`
(`mtp.pylibmtp`, the COM interfaces, the OS filesystem calls) are modelled
from the specification text, as noted in their doc comments.

Conventions:
* Machine paths are Lean `String`s; splitting/joining is modelled by
  executable character-list functions mirroring Python `str.split`,
  `str.replace` and `os.path.join`.
* Python string comparison (used by `list.sort(key=...)`) is modelled by
  `strLe`, code-point lexicographic order, matching CPython semantics.
* Errors (`IOError`, `IndexError`) become an explicit `PyErr` value in an
  `Except` result; `None` results become `Option`.
-/

/-! ## String utilities: Python `str.split`, `str.replace`, `os.path.join` -/

/-- Split a character list at every occurrence of `sep` (Python `str.split(sep)`,
which yields `n+1` parts for `n` separators, including empty parts). -/
def splitChar (sep : Char) : List Char → List (List Char)
  | [] => [[]]
  | c :: cs =>
    if c = sep then [] :: splitChar sep cs
    else
      match splitChar sep cs with
      | [] => [[c]]
      | p :: ps => (c :: p) :: ps

/-- Python `s.split(sep)` for a one-character separator. -/
def pySplit (sep : Char) (s : String) : List String :=
  (splitChar sep s.data).map (fun l => String.mk l)

/-- Python `s.split(sep, 1)`: at most one split, at the first separator. -/
def pySplit1 (sep : Char) (s : String) : List String :=
  match pySplit sep s with
  | [] => [s]
  | [x] => [x]
  | x :: rest => [x, String.intercalate (String.mk [sep]) rest]

/-- Python `s.replace(a, b)` for one-character `a`, `b` (path normalisation). -/
def pyReplace (a b : Char) (s : String) : String :=
  String.mk (s.data.map (fun c => if c = a then b else c))

/-- `os.path.join(a, b)` restricted to relative `b`: returns `b` when `a` is
empty, else `a ++ sep ++ b`. -/
def pjoin (sep : Char) (a b : String) : String :=
  if a.data.isEmpty then b else a ++ String.mk [sep] ++ b

/-- `os.path.basename`: the part after the last separator. -/
def pyBasename (sep : Char) (s : String) : String :=
  (pySplit sep s).getLastD s

/-- A path segment is clean when it is nonempty and free of both separator
characters; path split/join round-trips are only claimed for clean segments. -/
def segClean (sep alt : Char) (s : String) : Bool :=
  !s.data.isEmpty && s.data.all (fun c => c ≠ sep && c ≠ alt)

/-- Python string `<=`: code-point lexicographic comparison on the character
lists, as CPython compares `str` values. -/
def charListLe : List Char → List Char → Bool
  | [], _ => true
  | _ :: _, [] => false
  | a :: as, b :: bs =>
    if a.toNat < b.toNat then true else if b.toNat < a.toNat then false else charListLe as bs

/-- Python `a <= b` on strings. -/
def strLe (a b : String) : Bool := charListLe a.data b.data

theorem charListLe_total (a b : List Char) : charListLe a b || charListLe b a := by
  induction a generalizing b with
  | nil => simp [charListLe]
  | cons x xs ih =>
    cases b with
    | nil => simp [charListLe]
    | cons y ys =>
      by_cases hxy : x.toNat < y.toNat
      · simp [charListLe, hxy]
      · by_cases hyx : y.toNat < x.toNat
        · simp [charListLe, hxy, hyx]
        · simpa [charListLe, hxy, hyx] using ih ys

theorem charListLe_trans {a b c : List Char} (h1 : charListLe a b) (h2 : charListLe b c) :
    charListLe a c := by
  induction a generalizing b c with
  | nil => simp [charListLe]
  | cons x xs ih =>
    cases b with
    | nil => simp [charListLe] at h1
    | cons y ys =>
      cases c with
      | nil => simp [charListLe] at h2
      | cons z zs =>
        simp only [charListLe] at h1 h2 ⊢
        by_cases hxy : x.toNat < y.toNat
        · by_cases hyz : y.toNat < z.toNat
          · have : x.toNat < z.toNat := lt_trans hxy hyz
            simp [this]
          · by_cases hzy : z.toNat < y.toNat
            · simp [hyz, hzy] at h2
            · have hyzeq : y.toNat = z.toNat := le_antisymm (le_of_not_lt hzy) (le_of_not_lt hyz)
              have : x.toNat < z.toNat := hyzeq ▸ hxy
              simp [this]
        · by_cases hyx : y.toNat < x.toNat
          · simp [hxy, hyx] at h1
          · have hxyeq : x.toNat = y.toNat := le_antisymm (le_of_not_lt hyx) (le_of_not_lt hxy)
            by_cases hyz : y.toNat < z.toNat
            · have : x.toNat < z.toNat := hxyeq ▸ hyz
              simp [this]
            · by_cases hzy : z.toNat < y.toNat
              · simp [hyz, hzy] at h2
              · have hyzeq : y.toNat = z.toNat := le_antisymm (le_of_not_lt hzy) (le_of_not_lt hyz)
                have hxz : ¬ x.toNat < z.toNat := by rw [hxyeq, hyzeq]; exact lt_irrefl _
                have hzx : ¬ z.toNat < x.toNat := by rw [hxyeq, hyzeq]; exact lt_irrefl _
                simp only [hxz, hzx, if_neg, if_false]
                simp only [charListLe, hxy, hyx, if_neg, if_false] at h1
                simp only [charListLe, hyz, hzy, if_neg, if_false] at h2
                exact ih h1 h2

theorem strLe_total (a b : String) : strLe a b || strLe b a := charListLe_total _ _

theorem strLe_trans {a b c : String} (h1 : strLe a b) (h2 : strLe b c) : strLe a c :=
  charListLe_trans h1 h2

/-! ## Stable sort, modelling Python `list.sort(key=...)` (ascending, stable) -/

/-- Stable insertion of `x` into a sorted list: `x` goes before the first
element it compares `le` to, hence after all equal keys already present. -/
def pyInsertBy {α : Type} (le : α → α → Bool) (x : α) : List α → List α
  | [] => [x]
  | y :: ys => if le x y then x :: y :: ys else y :: pyInsertBy le x ys

/-- Stable ascending sort, extensionally the behaviour of Python `list.sort`
with a comparison key. -/
def pySortBy {α : Type} (le : α → α → Bool) : List α → List α
  | [] => []
  | x :: xs => pyInsertBy le x (pySortBy le xs)

theorem pyInsertBy_perm {α : Type} (le : α → α → Bool) (x : α) (l : List α) :
    List.Perm (pyInsertBy le x l) (x :: l) := by
  induction l with
  | nil => rfl
  | cons y ys ih =>
    by_cases h : le x y
    · simp [pyInsertBy, h]
    · simp only [pyInsertBy, if_neg h]
      exact ((ih).cons y).trans (List.Perm.swap x y ys)

theorem pySortBy_perm {α : Type} (le : α → α → Bool) (l : List α) :
    List.Perm (pySortBy le l) l := by
  induction l with
  | nil => rfl
  | cons x xs ih => exact (pyInsertBy_perm le x _).trans (ih.cons x)

theorem pyInsertBy_sorted {α : Type} (le : α → α → Bool)
    (htot : ∀ a b : α, le a b || le b a)
    (htr : ∀ {a b c : α}, le a b → le b c → le a c)
    (x : α) (l : List α) (h : l.Pairwise (fun a b => le a b = true)) :
    (pyInsertBy le x l).Pairwise (fun a b => le a b = true) := by
  induction l with
  | nil => simp [pyInsertBy]
  | cons y ys ih =>
    rcases List.pairwise_cons.mp h with ⟨hy, hys⟩
    by_cases hxy : le x y
    · simp only [pyInsertBy, if_pos hxy]
      refine List.pairwise_cons.mpr ⟨?_, h⟩
      intro b hb
      rcases List.mem_cons.mp hb with hb | hb
      · exact hb ▸ hxy
      · exact htr hxy (hy _ hb)
    · simp only [pyInsertBy, if_neg hxy]
      refine List.pairwise_cons.mpr ⟨?_, ih hys⟩
      intro b hb
      have hmem : b ∈ x :: ys := (pyInsertBy_perm le x ys).mem_iff.mp hb
      rcases List.mem_cons.mp hmem with hb' | hb'
      · rcases Bool.or_eq_true_iff.mp (htot x y) with h' | h'
        · exact absurd h' hxy
        · exact hb' ▸ h'
      · exact hy _ hb'

theorem pySortBy_sorted {α : Type} (le : α → α → Bool)
    (htot : ∀ a b : α, le a b || le b a)
    (htr : ∀ {a b c : α}, le a b → le b c → le a c)
    (l : List α) :
    (pySortBy le l).Pairwise (fun a b => le a b = true) := by
  induction l with
  | nil => simp [pySortBy]
  | cons x xs ih => exact pyInsertBy_sorted le htot htr x _ ih

/-! ## Content-tree model for `walk`

`walk` (linux_access.py:746-826, win_access.py:826-900) consumes the nodes
returned by `get_children` only through their `full_filename`,
`content_type` and further children; it is therefore verified over an
abstract finite content tree.  A node whose `broken` flag is set models a
node whose child enumeration raises (`IOError` on the gvfs/libmtp listing,
`comtypes.COMError` on the COM enumerator). -/

inductive PNode : Type where
  | node (full_filename : String) (content_type : Int) (broken : Bool) (children : List PNode)
  deriving Repr

def PNode.full_filename : PNode → String
  | .node f _ _ _ => f

def PNode.content_type : PNode → Int
  | .node _ t _ _ => t

def PNode.broken : PNode → Bool
  | .node _ _ b _ => b

def PNode.children : PNode → List PNode
  | .node _ _ _ cs => cs

mutual
def PNode.tsize : PNode → Nat
  | .node _ _ _ cs => 1 + tsizeL cs
def tsizeL : List PNode → Nat
  | [] => 0
  | x :: xs => PNode.tsize x + tsizeL xs
end

/-- `cont.get_children()` as consumed by `walk`: the child list, or the
enumeration failure message for a broken node. -/
def getChildrenE (q : PNode) : Except String (List PNode) :=
  if q.broken then .error ("Error getting children of " ++ q.full_filename)
  else .ok q.children

/-- One yielded `walk` triple: root path, directories, files. -/
abbrev WTriple := String × List PNode × List PNode

/-- How a finished `walk` generator run ended: normally exhausted, cancelled
by a callback returning `False`, or terminated by a raised `IOError`. -/
inductive WalkStatus where
  | completed
  | cancelled
  | failed
  deriving Repr, DecidableEq

/-- `directories.sort(key=lambda ent: ent.full_filename)` / `sorted(...)`. -/
def sortByFull (l : List PNode) : List PNode :=
  pySortBy (fun a b => strLe a.full_filename b.full_filename) l

/-- The per-child body of the `for child in cont.get_children()` loop shared
by both `walk` implementations: classify the child into `directories`
(`content_type` 0 or 1) or `files` (`content_type` 2, via `elif`), then give
the visit callback (modelled with explicit state `σ`) a chance to cancel.
Returns the collected lists, the final callback state and the cancel flag. -/
def visitChildren {σ : Type} (cb : Option (σ → String → Bool × σ)) :
    List PNode → σ → (List PNode × List PNode × σ × Bool)
  | [], s => ([], [], s, false)
  | c :: cs, s =>
    let isDir := c.content_type == 0 || c.content_type == 1
    let isFile := !isDir && (c.content_type == 2)
    match cb with
    | some f =>
      match f s c.full_filename with
      | (true, s1) =>
        match visitChildren cb cs s1 with
        | (ds, fs, s2, canc) =>
          ((if isDir then c :: ds else ds), (if isFile then c :: fs else fs), s2, canc)
      | (false, s1) =>
        ((if isDir then [c] else []), (if isFile then [c] else []), s1, true)
    | none =>
      match visitChildren cb cs s with
      | (ds, fs, s2, canc) =>
        ((if isDir then c :: ds else ds), (if isFile then c :: fs else fs), s2, canc)

theorem visitChildren_sublists {σ : Type} (cb : Option (σ → String → Bool × σ))
    (cs : List PNode) (s : σ) :
    (visitChildren cb cs s).1.Sublist cs ∧ (visitChildren cb cs s).2.1.Sublist cs := by
  induction cs generalizing s with
  | nil => simp [visitChildren]
  | cons c cs ih =>
    cases cb with
    | none =>
      have := ih s
      rcases hv : visitChildren (σ := σ) none cs s with ⟨ds, fs, s2, canc⟩
      rw [hv] at this
      constructor
      · by_cases hd : (c.content_type == 0 || c.content_type == 1) = true
        · simpa [visitChildren, hv, hd] using this.1.cons₂ c
        · simpa [visitChildren, hv, hd] using this.1.cons c
      · by_cases hd : (c.content_type == 0 || c.content_type == 1) = true
        · simpa [visitChildren, hv, hd] using this.2.cons c
        · by_cases hf : (c.content_type == 2 : Bool)
          · simpa [visitChildren, hv, hd, hf] using this.2.cons₂ c
          · simpa [visitChildren, hv, hd, hf] using this.2.cons c
    | some f =>
      rcases hf1 : f s c.full_filename with ⟨ok, s1⟩
      cases ok with
      | true =>
        have := ih s1
        rcases hv : visitChildren (σ := σ) (some f) cs s1 with ⟨ds, fs, s2, canc⟩
        rw [hv] at this
        constructor
        · by_cases hd : (c.content_type == 0 || c.content_type == 1) = true
          · simpa [visitChildren, hf1, hv, hd] using this.1.cons₂ c
          · simpa [visitChildren, hf1, hv, hd] using this.1.cons c
        · by_cases hd : (c.content_type == 0 || c.content_type == 1) = true
          · simpa [visitChildren, hf1, hv, hd] using this.2.cons c
          · by_cases hff : (c.content_type == 2 : Bool)
            · simpa [visitChildren, hf1, hv, hd, hff] using this.2.cons₂ c
            · simpa [visitChildren, hf1, hv, hd, hff] using this.2.cons c
      | false =>
        constructor
        · by_cases hd : (c.content_type == 0 || c.content_type == 1) = true
          · simpa [visitChildren, hf1, hd] using (List.nil_sublist cs).cons₂ c
          · simpa [visitChildren, hf1, hd] using (List.nil_sublist (c :: cs))
        · by_cases hd : (c.content_type == 0 || c.content_type == 1) = true
          · simpa [visitChildren, hf1, hd] using (List.nil_sublist (c :: cs))
          · by_cases hff : (c.content_type == 2 : Bool)
            · simpa [visitChildren, hf1, hd, hff] using (List.nil_sublist cs).cons₂ c
            · simpa [visitChildren, hf1, hd, hff] using (List.nil_sublist (c :: cs))

theorem tsizeL_append (a b : List PNode) : tsizeL (a ++ b) = tsizeL a + tsizeL b := by
  induction a with
  | nil => simp [tsizeL]
  | cons x xs ih => simp [tsizeL, ih]; omega

theorem tsizeL_sublist {a b : List PNode} (h : a.Sublist b) : tsizeL a ≤ tsizeL b := by
  induction h with
  | slnil => exact le_refl _
  | cons x _ ih => simp [tsizeL]; omega
  | cons₂ x _ ih => simp [tsizeL]; omega

theorem tsizeL_perm {a b : List PNode} (h : List.Perm a b) : tsizeL a = tsizeL b := by
  induction h with
  | nil => rfl
  | cons x _ ih => simp [tsizeL, ih]
  | swap x y l => simp [tsizeL]; omega
  | trans _ _ ih1 ih2 => omega

theorem getChildrenE_ok {q : PNode} {cs : List PNode} (h : getChildrenE q = .ok cs) :
    cs = q.children := by
  by_cases hb : q.broken
  · simp [getChildrenE, hb] at h
  · simp only [getChildrenE, hb, Bool.false_eq_true, if_false] at h
    exact (Except.ok.injEq .. ▸ h).symm

theorem walk_measure_lt {q : PNode} {qs cs ds : List PNode} (l : List PNode)
    (hcs : cs = q.children) (hds : ds.Sublist cs) (hperm : List.Perm l ds) :
    tsizeL (qs ++ l) < tsizeL (q :: qs) := by
  have h1 : tsizeL l = tsizeL ds := tsizeL_perm hperm
  have h2 : tsizeL ds ≤ tsizeL cs := tsizeL_sublist hds
  have h3 : PNode.tsize q = 1 + tsizeL q.children := by
    cases q; simp [PNode.tsize, PNode.children]
  rw [tsizeL_append]
  simp only [tsizeL]
  rw [h3, ← hcs]
  omega

theorem walk_measure_tail (q : PNode) (qs : List PNode) :
    tsizeL qs < tsizeL (q :: qs) := by
  have h3 : PNode.tsize q = 1 + tsizeL q.children := by
    cases q; simp [PNode.tsize, PNode.children]
  simp only [tsizeL]
  omega

/-! ## The two `walk` implementations

Each models the `while walk_cont:` loop of its Python source, after the
root path has been resolved; the recursion argument is the pending FIFO
queue `walk_cont` seeded with the resolved root.  The visit callback is
modelled with an explicit state `σ` (a Python callback closure may be
stateful); the error callback gets the failure message.  The returned list
holds every yielded triple, together with the final callback state and how
the generator run ended. -/

/-- `walk` of linux_access.py (lines 795-826): on a child-enumeration
failure with no `error_callback` the walk raises `IOError` (status
`failed`); sorted directories are enqueued. -/
def linux_walk_loop {σ : Type} (cb : Option (σ → String → Bool × σ))
    (ecb : Option (String → Bool)) :
    List PNode → σ → (List WTriple × σ × WalkStatus)
  | [], s => ([], s, .completed)
  | q :: qs, s =>
    match hgc : getChildrenE q with
    | .error msg =>
      match ecb with
      | some f =>
        if f msg then linux_walk_loop cb ecb qs s
        else ([], s, .cancelled)
      | none => ([], s, .failed)
    | .ok cs =>
      match hvc : visitChildren cb cs s with
      | (_, _, s1, true) => ([], s1, .cancelled)
      | (dirs, files, s1, false) =>
        match linux_walk_loop cb ecb (qs ++ sortByFull dirs) s1 with
        | (ts, s2, st) =>
          ((q.full_filename, sortByFull dirs, sortByFull files) :: ts, s2, st)
termination_by queue _ => tsizeL queue
decreasing_by
  · exact walk_measure_tail _ _
  · refine walk_measure_lt _ (getChildrenE_ok hgc) ?_ (pySortBy_perm _ _)
    have h := visitChildren_sublists cb cs s
    rw [hvc] at h
    exact h.1

/-- `walk` of win_access.py (lines 869-900): identical except that a
child-enumeration failure with no `error_callback` is silently swallowed
(the node's triple is skipped and the walk continues), and that the
*unsorted* directory list is enqueued while the sorted one is yielded. -/
def win_walk_loop {σ : Type} (cb : Option (σ → String → Bool × σ))
    (ecb : Option (String → Bool)) :
    List PNode → σ → (List WTriple × σ × WalkStatus)
  | [], s => ([], s, .completed)
  | q :: qs, s =>
    match hgc : getChildrenE q with
    | .error msg =>
      match ecb with
      | some f =>
        if f msg then win_walk_loop cb ecb qs s
        else ([], s, .cancelled)
      | none => win_walk_loop cb ecb qs s
    | .ok cs =>
      match hvc : visitChildren cb cs s with
      | (_, _, s1, true) => ([], s1, .cancelled)
      | (dirs, files, s1, false) =>
        match win_walk_loop cb ecb (qs ++ dirs) s1 with
        | (ts, s2, st) =>
          ((q.full_filename, sortByFull dirs, sortByFull files) :: ts, s2, st)
termination_by queue _ => tsizeL queue
decreasing_by
  · exact walk_measure_tail _ _
  · refine walk_measure_lt _ (getChildrenE_ok hgc) ?_ (List.Perm.refl _)
    have h := visitChildren_sublists cb cs s
    rw [hvc] at h
    exact h.1

/-! ## Well-formed content trees and descendant lists -/

mutual
/-- A content (sub)tree as actually produced by the backends: enumeration
succeeds, every node is a storage, directory or file, and files have no
children. -/
def PNode.wfB : PNode → Bool
  | .node _ t b cs => !b && (t == 0 || t == 1 || t == 2) && (!(t == 2) || cs.isEmpty) && wfLB cs
def wfLB : List PNode → Bool
  | [] => true
  | c :: cs => PNode.wfB c && wfLB cs
end

mutual
/-- All strict descendants of a node, in depth-first order. -/
def PNode.descList : PNode → List PNode
  | .node _ _ _ cs => descAux cs
def descAux : List PNode → List PNode
  | [] => []
  | c :: cs => c :: (PNode.descList c ++ descAux cs)
end

/-- Strict descendants of every node of a queue. -/
def flatDesc (l : List PNode) : List PNode := l.flatMap PNode.descList

/-- All entries (directories and files) of a list of yielded walk triples. -/
def entriesOf (ts : List WTriple) : List PNode := ts.flatMap (fun t => t.2.1 ++ t.2.2)

/-- The walk classification `content_type in [STORAGE, DIRECTORY]`. -/
def isDirB (c : PNode) : Bool := c.content_type == 0 || c.content_type == 1

/-- The walk classification `elif content_type == FILE`. -/
def isFileB (c : PNode) : Bool := !isDirB c && (c.content_type == 2)

theorem wfLB_all (l : List PNode) : wfLB l = true ↔ ∀ c ∈ l, PNode.wfB c := by
  induction l with
  | nil => simp [wfLB]
  | cons c cs ih => simp [wfLB, ih]

theorem wfB_parts {q : PNode} (h : PNode.wfB q = true) :
    q.broken = false ∧ (q.content_type = 0 ∨ q.content_type = 1 ∨ q.content_type = 2) ∧
      (q.content_type = 2 → q.children = []) ∧ ∀ c ∈ q.children, PNode.wfB c := by
  cases q with
  | node f t b cs =>
    simp only [PNode.wfB, Bool.and_eq_true, Bool.not_eq_true', Bool.or_eq_true, beq_iff_eq,
      Bool.not_eq_true] at h
    rcases h with ⟨⟨⟨hb, ht⟩, hf⟩, hcs⟩
    refine ⟨hb, ?_, ?_, (wfLB_all cs).mp hcs⟩
    · simp only [PNode.content_type]
      tauto
    · intro h2
      simp only [PNode.content_type] at h2
      simp only [PNode.children]
      rcases hf with hf | hf
      · simp [h2] at hf
      · exact List.isEmpty_iff.mp hf

theorem descAux_eq (l : List PNode) :
    descAux l = l.flatMap (fun c => c :: c.descList) := by
  induction l with
  | nil => simp [descAux]
  | cons c cs ih => simp [descAux, ih, PNode.descList]

theorem descAux_perm (l : List PNode) :
    List.Perm (descAux l) (l ++ flatDesc l) := by
  have h := List.map_append_flatMap_perm l id PNode.descList
  simp only [List.map_id] at h
  rw [descAux_eq, flatDesc]
  exact (h.trans (by simp)).symm

theorem flatDesc_append (a b : List PNode) :
    flatDesc (a ++ b) = flatDesc a ++ flatDesc b := by
  simp [flatDesc]

theorem flatDesc_perm {a b : List PNode} (h : List.Perm a b) :
    List.Perm (flatDesc a) (flatDesc b) := h.flatMap_right _

theorem entriesOf_cons (f : String) (d fi : List PNode) (ts : List WTriple) :
    entriesOf ((f, d, fi) :: ts) = (d ++ fi) ++ entriesOf ts := by
  simp [entriesOf]

theorem wf_not_dir_eq_file {c : PNode} (h : PNode.wfB c = true) :
    (!isDirB c) = isFileB c := by
  rcases (wfB_parts h).2.1 with h0 | h1 | h2
  · simp [isDirB, isFileB, h0]
  · simp [isDirB, isFileB, h1]
  · simp [isDirB, isFileB, h2]

theorem filter_dir_file_perm {cs : List PNode} (hwf : ∀ c ∈ cs, PNode.wfB c = true) :
    List.Perm (cs.filter isDirB ++ cs.filter isFileB) cs := by
  have hcong : cs.filter (fun c => !isDirB c) = cs.filter isFileB :=
    List.filter_congr (fun c hc => wf_not_dir_eq_file (hwf c hc))
  rw [← hcong]
  exact List.filter_append_perm _ _

theorem isFileB_ct {c : PNode} (h : isFileB c = true) : c.content_type = 2 := by
  simp only [isFileB, Bool.and_eq_true, beq_iff_eq] at h
  exact h.2

theorem wf_file_descList {c : PNode} (hwf : PNode.wfB c = true) (hf : isFileB c = true) :
    c.descList = [] := by
  have hch : c.children = [] := (wfB_parts hwf).2.2.1 (isFileB_ct hf)
  cases c with
  | node f t b cs =>
    simp only [PNode.children] at hch
    simp [PNode.descList, hch, descAux]

theorem flatDesc_files_nil {cs : List PNode} (hwf : ∀ c ∈ cs, PNode.wfB c = true) :
    flatDesc (cs.filter isFileB) = [] := by
  simp only [flatDesc]
  rw [List.flatMap_eq_nil_iff]
  intro c hc
  rcases List.mem_filter.mp hc with ⟨hmem, hfile⟩
  exact wf_file_descList (hwf c hmem) hfile

theorem descList_as_children {q : PNode} :
    q.descList = descAux q.children := by
  cases q; simp [PNode.descList, PNode.children]

theorem descList_perm_parts {q : PNode} (hwf : PNode.wfB q = true) :
    List.Perm q.descList
      ((q.children.filter isDirB ++ q.children.filter isFileB)
        ++ flatDesc (q.children.filter isDirB)) := by
  have hch : ∀ c ∈ q.children, PNode.wfB c = true := (wfB_parts hwf).2.2.2
  have h1 : List.Perm q.descList (q.children ++ flatDesc q.children) :=
    descList_as_children ▸ descAux_perm q.children
  have h2 : List.Perm q.children (q.children.filter isDirB ++ q.children.filter isFileB) :=
    (filter_dir_file_perm hch).symm
  have h3 : List.Perm (flatDesc q.children)
      (flatDesc (q.children.filter isDirB ++ q.children.filter isFileB)) :=
    flatDesc_perm h2
  have h4 : flatDesc (q.children.filter isDirB ++ q.children.filter isFileB)
      = flatDesc (q.children.filter isDirB) ++ flatDesc (q.children.filter isFileB) :=
    flatDesc_append _ _
  have h5 : flatDesc (q.children.filter isFileB) = [] := flatDesc_files_nil hch
  rw [h4, h5, List.append_nil] at h3
  exact h1.trans (h2.append h3)

theorem visitChildren_none {σ : Type} (cs : List PNode) (s : σ) :
    visitChildren (σ := σ) none cs s = (cs.filter isDirB, cs.filter isFileB, s, false) := by
  induction cs generalizing s with
  | nil => simp [visitChildren]
  | cons c cs ih =>
    simp only [visitChildren, ih, List.filter_cons]
    by_cases hd : (c.content_type == 0 || c.content_type == 1) = true
    · simp [isDirB, isFileB, hd]
    · by_cases hf : (c.content_type == 2) = true
      · simp [isDirB, isFileB, hd, hf]
      · simp [isDirB, isFileB, hd, hf]

theorem sortByFull_perm (l : List PNode) : List.Perm (sortByFull l) l :=
  pySortBy_perm _ l

/-! Step equations for the two walk loops (the well-founded definitions do
not reduce definitionally, so each source branch gets an explicit equation). -/

theorem linux_walk_cons_ok {σ : Type} (cb : Option (σ → String → Bool × σ))
    (ecb : Option (String → Bool)) (q : PNode) (qs : List PNode) (s : σ)
    {cs dirs files : List PNode} {s1 : σ}
    (hgc : getChildrenE q = .ok cs)
    (hvc : visitChildren cb cs s = (dirs, files, s1, false)) :
    linux_walk_loop cb ecb (q :: qs) s =
      ((q.full_filename, sortByFull dirs, sortByFull files) ::
          (linux_walk_loop cb ecb (qs ++ sortByFull dirs) s1).1,
        (linux_walk_loop cb ecb (qs ++ sortByFull dirs) s1).2) := by
  rw [linux_walk_loop]
  split
  · rename_i msg heq
    rw [hgc] at heq
    cases heq
  · rename_i cs' heq
    rw [hgc] at heq
    injection heq with h
    subst h
    split
    · rename_i x1 x2 s1' heq2
      rw [hvc] at heq2
      cases heq2
    · rename_i dirs' files' s1' heq2
      rw [hvc] at heq2
      injection heq2 with h1 h2
      injection h2 with h2 h3
      injection h3 with h3 h4
      subst h1 h2 h3
      rcases hrec : linux_walk_loop cb ecb (qs ++ sortByFull dirs) s1 with ⟨ts, s2, st⟩
      simp [hrec]

theorem win_walk_cons_ok {σ : Type} (cb : Option (σ → String → Bool × σ))
    (ecb : Option (String → Bool)) (q : PNode) (qs : List PNode) (s : σ)
    {cs dirs files : List PNode} {s1 : σ}
    (hgc : getChildrenE q = .ok cs)
    (hvc : visitChildren cb cs s = (dirs, files, s1, false)) :
    win_walk_loop cb ecb (q :: qs) s =
      ((q.full_filename, sortByFull dirs, sortByFull files) ::
          (win_walk_loop cb ecb (qs ++ dirs) s1).1,
        (win_walk_loop cb ecb (qs ++ dirs) s1).2) := by
  rw [win_walk_loop]
  split
  · rename_i msg heq
    rw [hgc] at heq
    cases heq
  · rename_i cs' heq
    rw [hgc] at heq
    injection heq with h
    subst h
    split
    · rename_i x1 x2 s1' heq2
      rw [hvc] at heq2
      cases heq2
    · rename_i dirs' files' s1' heq2
      rw [hvc] at heq2
      injection heq2 with h1 h2
      injection h2 with h2 h3
      injection h3 with h3 h4
      subst h1 h2 h3
      rcases hrec : win_walk_loop cb ecb (qs ++ dirs) s1 with ⟨ts, s2, st⟩
      simp [hrec]

theorem linux_walk_cons_cancel {σ : Type} (cb : Option (σ → String → Bool × σ))
    (ecb : Option (String → Bool)) (q : PNode) (qs : List PNode) (s : σ)
    {cs d f : List PNode} {s1 : σ}
    (hgc : getChildrenE q = .ok cs)
    (hvc : visitChildren cb cs s = (d, f, s1, true)) :
    linux_walk_loop cb ecb (q :: qs) s = ([], s1, .cancelled) := by
  rw [linux_walk_loop]
  split
  · rename_i msg heq
    rw [hgc] at heq
    cases heq
  · rename_i cs' heq
    rw [hgc] at heq
    injection heq with h
    subst h
    split
    · rename_i x1 x2 s1' heq2
      rw [hvc] at heq2
      injection heq2 with h1 h2
      injection h2 with h2 h3
      injection h3 with h3 h4
      subst h3
      rfl
    · rename_i dirs' files' s1' heq2
      rw [hvc] at heq2
      injection heq2 with h1 h2
      injection h2 with h2 h3
      injection h3 with h3 h4
      cases h4

theorem win_walk_cons_cancel {σ : Type} (cb : Option (σ → String → Bool × σ))
    (ecb : Option (String → Bool)) (q : PNode) (qs : List PNode) (s : σ)
    {cs d f : List PNode} {s1 : σ}
    (hgc : getChildrenE q = .ok cs)
    (hvc : visitChildren cb cs s = (d, f, s1, true)) :
    win_walk_loop cb ecb (q :: qs) s = ([], s1, .cancelled) := by
  rw [win_walk_loop]
  split
  · rename_i msg heq
    rw [hgc] at heq
    cases heq
  · rename_i cs' heq
    rw [hgc] at heq
    injection heq with h
    subst h
    split
    · rename_i x1 x2 s1' heq2
      rw [hvc] at heq2
      injection heq2 with h1 h2
      injection h2 with h2 h3
      injection h3 with h3 h4
      subst h3
      rfl
    · rename_i dirs' files' s1' heq2
      rw [hvc] at heq2
      injection heq2 with h1 h2
      injection h2 with h2 h3
      injection h3 with h3 h4
      cases h4

theorem linux_walk_cons_error_none {σ : Type} (cb : Option (σ → String → Bool × σ))
    (q : PNode) (qs : List PNode) (s : σ) {msg : String}
    (hgc : getChildrenE q = .error msg) :
    linux_walk_loop cb none (q :: qs) s = ([], s, .failed) := by
  rw [linux_walk_loop]
  split
  · rfl
  · rename_i cs' heq
    rw [hgc] at heq
    cases heq

theorem win_walk_cons_error_none {σ : Type} (cb : Option (σ → String → Bool × σ))
    (q : PNode) (qs : List PNode) (s : σ) {msg : String}
    (hgc : getChildrenE q = .error msg) :
    win_walk_loop cb none (q :: qs) s = win_walk_loop cb none qs s := by
  rw [win_walk_loop]
  split
  · rfl
  · rename_i cs' heq
    rw [hgc] at heq
    cases heq
theorem linux_walk_nil {σ : Type} (cb : Option (σ → String → Bool × σ))
    (ecb : Option (String → Bool)) (s : σ) :
    linux_walk_loop cb ecb [] s = ([], s, .completed) := by
  rw [linux_walk_loop]

theorem win_walk_nil {σ : Type} (cb : Option (σ → String → Bool × σ))
    (ecb : Option (String → Bool)) (s : σ) :
    win_walk_loop cb ecb [] s = ([], s, .completed) := by
  rw [win_walk_loop]

/-- With no callbacks, the linux walk completes and yields, across all of
its triples, exactly the strict descendants of the queue (as a multiset). -/
theorem linux_walk_complete {σ : Type} (queue : List PNode) (s : σ)
    (hwf : ∀ c ∈ queue, PNode.wfB c = true) :
    ∃ ts, linux_walk_loop (σ := σ) none none queue s = (ts, s, .completed) ∧
      List.Perm (entriesOf ts) (flatDesc queue) := by
  induction queue, s using linux_walk_loop.induct (none : Option (σ → String → Bool × σ)) none with
  | case1 s => exact ⟨[], linux_walk_nil .., by simp [entriesOf, flatDesc]⟩
  | case2 q qs s msg hgc f hf hcall ih => cases hf
  | case3 q qs s msg hgc f hf hcall => cases hf
  | case4 q qs s msg hgc hecb =>
    have hq : PNode.wfB q = true := hwf q (by simp)
    have hb : q.broken = false := (wfB_parts hq).1
    simp [getChildrenE, hb] at hgc
  | case5 q qs s cs hgc x1 x2 s1 hvc =>
    rw [visitChildren_none] at hvc
    cases hvc
  | case6 q qs s cs hgc dirs files s1 hvc ts0 s20 st0 heqw ih =>
    have hq : PNode.wfB q = true := hwf q (by simp)
    have hcs : cs = q.children := getChildrenE_ok hgc
    have hch : ∀ c ∈ cs, PNode.wfB c = true := hcs ▸ (wfB_parts hq).2.2.2
    rw [visitChildren_none] at hvc
    have hdirs : dirs = cs.filter isDirB := by cases hvc; rfl
    have hfiles : files = cs.filter isFileB := by cases hvc; rfl
    have hs1 : s1 = s := by cases hvc; rfl
    subst hdirs hfiles hs1
    have hwf2 : ∀ c ∈ qs ++ sortByFull (cs.filter isDirB), PNode.wfB c = true := by
      intro c hc
      rcases List.mem_append.mp hc with hc | hc
      · exact hwf c (List.mem_cons_of_mem _ hc)
      · exact hch c (List.mem_filter.mp ((sortByFull_perm _).subset hc)).1
    rcases ih hwf2 with ⟨ts1, heq, hperm⟩
    refine ⟨(q.full_filename, sortByFull (cs.filter isDirB), sortByFull (cs.filter isFileB)) :: ts1,
      ?_, ?_⟩
    · rw [linux_walk_cons_ok none none q qs _ hgc (by rw [visitChildren_none]), heq]
    · rw [entriesOf_cons]
      have hd : List.Perm (sortByFull (cs.filter isDirB)) (cs.filter isDirB) := sortByFull_perm _
      have hfp : List.Perm (sortByFull (cs.filter isFileB)) (cs.filter isFileB) := sortByFull_perm _
      have hrest : List.Perm (entriesOf ts1)
          (flatDesc qs ++ flatDesc (cs.filter isDirB)) := by
        have h0 := hperm
        rw [flatDesc_append] at h0
        exact h0.trans ((flatDesc_perm hd).append_left _)
      have hstep : List.Perm
          ((sortByFull (cs.filter isDirB) ++ sortByFull (cs.filter isFileB)) ++ entriesOf ts1)
          (((cs.filter isDirB) ++ (cs.filter isFileB))
            ++ (flatDesc qs ++ flatDesc (cs.filter isDirB))) :=
        (hd.append hfp).append hrest
      refine hstep.trans ?_
      have hcomm : List.Perm (flatDesc qs ++ flatDesc (cs.filter isDirB))
          (flatDesc (cs.filter isDirB) ++ flatDesc qs) := List.perm_append_comm
      refine ((List.Perm.refl _).append hcomm).trans ?_
      have hq2 : List.Perm
          (((cs.filter isDirB) ++ (cs.filter isFileB)) ++ flatDesc (cs.filter isDirB))
          q.descList := by
        have := descList_perm_parts hq
        rw [← hcs] at this
        exact this.symm
      have hfin := hq2.append_right (flatDesc qs)
      rw [List.append_assoc] at hfin
      refine hfin.trans ?_
      simp [flatDesc]

/-- With no callbacks, the windows walk completes and yields, across all of
its triples, exactly the strict descendants of the queue (as a multiset). -/
theorem win_walk_complete {σ : Type} (queue : List PNode) (s : σ)
    (hwf : ∀ c ∈ queue, PNode.wfB c = true) :
    ∃ ts, win_walk_loop (σ := σ) none none queue s = (ts, s, .completed) ∧
      List.Perm (entriesOf ts) (flatDesc queue) := by
  induction queue, s using win_walk_loop.induct (none : Option (σ → String → Bool × σ)) none with
  | case1 s => exact ⟨[], win_walk_nil .., by simp [entriesOf, flatDesc]⟩
  | case2 q qs s msg hgc f hf hcall ih => cases hf
  | case3 q qs s msg hgc f hf hcall => cases hf
  | case4 q qs s msg hgc hecb ih =>
    have hq : PNode.wfB q = true := hwf q (by simp)
    have hb : q.broken = false := (wfB_parts hq).1
    simp [getChildrenE, hb] at hgc
  | case5 q qs s cs hgc x1 x2 s1 hvc =>
    rw [visitChildren_none] at hvc
    cases hvc
  | case6 q qs s cs hgc dirs files s1 hvc ts0 s20 st0 heqw ih =>
    have hq : PNode.wfB q = true := hwf q (by simp)
    have hcs : cs = q.children := getChildrenE_ok hgc
    have hch : ∀ c ∈ cs, PNode.wfB c = true := hcs ▸ (wfB_parts hq).2.2.2
    rw [visitChildren_none] at hvc
    have hdirs : dirs = cs.filter isDirB := by cases hvc; rfl
    have hfiles : files = cs.filter isFileB := by cases hvc; rfl
    have hs1 : s1 = s := by cases hvc; rfl
    subst hdirs hfiles hs1
    have hwf2 : ∀ c ∈ qs ++ cs.filter isDirB, PNode.wfB c = true := by
      intro c hc
      rcases List.mem_append.mp hc with hc | hc
      · exact hwf c (List.mem_cons_of_mem _ hc)
      · exact hch c (List.mem_filter.mp hc).1
    rcases ih hwf2 with ⟨ts1, heq, hperm⟩
    refine ⟨(q.full_filename, sortByFull (cs.filter isDirB), sortByFull (cs.filter isFileB)) :: ts1,
      ?_, ?_⟩
    · rw [win_walk_cons_ok none none q qs _ hgc (by rw [visitChildren_none]), heq]
    · rw [entriesOf_cons]
      have hd : List.Perm (sortByFull (cs.filter isDirB)) (cs.filter isDirB) := sortByFull_perm _
      have hfp : List.Perm (sortByFull (cs.filter isFileB)) (cs.filter isFileB) := sortByFull_perm _
      have hrest : List.Perm (entriesOf ts1)
          (flatDesc qs ++ flatDesc (cs.filter isDirB)) := by
        have h0 := hperm
        rw [flatDesc_append] at h0
        exact h0
      have hstep : List.Perm
          ((sortByFull (cs.filter isDirB) ++ sortByFull (cs.filter isFileB)) ++ entriesOf ts1)
          (((cs.filter isDirB) ++ (cs.filter isFileB))
            ++ (flatDesc qs ++ flatDesc (cs.filter isDirB))) :=
        (hd.append hfp).append hrest
      refine hstep.trans ?_
      have hcomm : List.Perm (flatDesc qs ++ flatDesc (cs.filter isDirB))
          (flatDesc (cs.filter isDirB) ++ flatDesc qs) := List.perm_append_comm
      refine ((List.Perm.refl _).append hcomm).trans ?_
      have hq2 : List.Perm
          (((cs.filter isDirB) ++ (cs.filter isFileB)) ++ flatDesc (cs.filter isDirB))
          q.descList := by
        have := descList_perm_parts hq
        rw [← hcs] at this
        exact this.symm
      have hfin := hq2.append_right (flatDesc qs)
      rw [List.append_assoc] at hfin
      refine hfin.trans ?_
      simp [flatDesc]
/-! ## Cancellation accounting for a counting visit callback -/

/-- A visit callback that counts its invocations (the state is the number of
entries visited so far) and returns `False` exactly on the `N`-th visited
entry, `True` before. -/
def countCb (N : Nat) : Nat → String → Bool × Nat :=
  fun c _ => (c + 1 != N, c + 1)

/-- Number of strict descendants of all queue nodes. -/
def ndL (l : List PNode) : Nat := (flatDesc l).length

theorem ndL_append (a b : List PNode) : ndL (a ++ b) = ndL a + ndL b := by
  simp [ndL, flatDesc_append]

theorem ndL_perm {a b : List PNode} (h : List.Perm a b) : ndL a = ndL b :=
  (flatDesc_perm h).length_eq

theorem ndL_cons_wf {q : PNode} (qs : List PNode) (hq : PNode.wfB q = true) :
    ndL (q :: qs) = q.children.length + ndL (q.children.filter isDirB) + ndL qs := by
  have h1 : ndL (q :: qs) = q.descList.length + ndL qs := by
    simp [ndL, flatDesc]
  have h2 : q.descList.length
      = (q.children.filter isDirB).length
        + ((q.children.filter isFileB).length + ndL (q.children.filter isDirB)) := by
    have := (descList_perm_parts hq).length_eq
    simpa [ndL] using this
  have h3 : (q.children.filter isDirB).length + (q.children.filter isFileB).length
      = q.children.length := by
    have := (filter_dir_file_perm (wfB_parts hq).2.2.2).length_eq
    simpa using this
  omega

theorem wf_level_length {cs : List PNode} (hwf : ∀ c ∈ cs, PNode.wfB c = true) :
    (cs.filter isDirB).length + (cs.filter isFileB).length = cs.length := by
  have := (filter_dir_file_perm hwf).length_eq
  simpa using this

/-- Evaluation of the child-visiting loop under the counting callback.  If
the whole level fits below `N`, every child is visited and classified; if
the count reaches `N` inside the level, the loop cancels with final count
exactly `N`. -/
theorem visitChildren_count (N : Nat) (cs : List PNode) (c : Nat) (hc : c < N) :
    (c + cs.length < N →
      visitChildren (some (countCb N)) cs c
        = (cs.filter isDirB, cs.filter isFileB, c + cs.length, false)) ∧
    (N ≤ c + cs.length →
      ∃ d f, visitChildren (some (countCb N)) cs c = (d, f, N, true)) := by
  induction cs generalizing c with
  | nil =>
    refine ⟨fun _ => by simp [visitChildren], fun h => ?_⟩
    exact absurd hc (by simp at h; omega)
  | cons hd tl ih =>
    by_cases hcN : c + 1 = N
    · refine ⟨fun h => ?_, fun _ => ?_⟩
      · exact absurd h (by simp; omega)
      · refine ⟨(if isDirB hd then [hd] else []), (if isFileB hd then [hd] else []), ?_⟩
        have hbeq : (c + 1 != N) = false := by simp [hcN]
        simp only [visitChildren, countCb, hbeq, hcN]
        by_cases hdir : (hd.content_type == 0 || hd.content_type == 1) = true
        · simp [isDirB, isFileB, hdir]
        · by_cases hfile : (hd.content_type == 2) = true
          · simp [isDirB, isFileB, hdir, hfile]
          · simp [isDirB, isFileB, hdir, hfile]
    · have hc1 : c + 1 < N := by omega
      have hbeq : (c + 1 != N) = true := by simp [hcN]
      rcases ih (c + 1) hc1 with ⟨ih1, ih2⟩
      refine ⟨fun h => ?_, fun h => ?_⟩
      · have h' : (c + 1) + tl.length < N := by simp at h; omega
        have hrec := ih1 h'
        simp only [visitChildren, countCb, hbeq, hrec, List.filter_cons, List.length_cons,
          Prod.mk.injEq]
        by_cases hdir : (hd.content_type == 0 || hd.content_type == 1) = true
        · simp [isDirB, isFileB, hdir, Prod.mk.injEq] <;> omega
        · by_cases hfile : (hd.content_type == 2) = true
          · simp [isDirB, isFileB, hdir, hfile, Prod.mk.injEq] <;> omega
          · simp [isDirB, isFileB, hdir, hfile, Prod.mk.injEq] <;> omega
      · by_cases hlvl : (c + 1) + tl.length < N
        · exact absurd h (by simp; omega)
        · have h' : N ≤ (c + 1) + tl.length := by omega
          rcases ih2 h' with ⟨d, f, hrec⟩
          refine ⟨(if isDirB hd then hd :: d else d), (if isFileB hd then hd :: f else f), ?_⟩
          simp only [visitChildren, countCb, hbeq, hrec]
          by_cases hdir : (hd.content_type == 0 || hd.content_type == 1) = true
          · simp [isDirB, isFileB, hdir]
          · by_cases hfile : (hd.content_type == 2) = true
            · simp [isDirB, isFileB, hdir, hfile]
            · simp [isDirB, isFileB, hdir, hfile]
theorem children_length_le_ndL {q : PNode} (qs : List PNode) (hq : PNode.wfB q = true) :
    q.children.length ≤ ndL (q :: qs) := by
  rw [ndL_cons_wf qs hq]
  omega

/-- Full accounting of the linux walk driven by the counting callback:
below `N` total visits it completes having yielded every descendant; once
the `N`-th visit happens it cancels, with at most `N - 1 - c` yielded
entries and final count exactly `N`. -/
theorem linux_walk_count (N : Nat) (queue : List PNode) (c : Nat)
    (hwf : ∀ x ∈ queue, PNode.wfB x = true) (hc : c < N) :
    (c + ndL queue < N →
      ∃ ts, linux_walk_loop (some (countCb N)) none queue c = (ts, c + ndL queue, .completed) ∧
        (entriesOf ts).length = ndL queue) ∧
    (N ≤ c + ndL queue →
      ∃ ts, linux_walk_loop (some (countCb N)) none queue c = (ts, N, .cancelled) ∧
        (entriesOf ts).length + 1 + c ≤ N) := by
  induction queue, c using linux_walk_loop.induct (some (countCb N)) none with
  | case1 s =>
    refine ⟨fun _ => ⟨[], ?_, ?_⟩, fun h => ?_⟩
    · simp [linux_walk_nil, ndL, flatDesc]
    · simp [entriesOf, ndL, flatDesc]
    · exact absurd hc (by simp [ndL, flatDesc] at h; omega)
  | case2 q qs s msg hgc f hf hcall ih => cases hf
  | case3 q qs s msg hgc f hf hcall => cases hf
  | case4 q qs s msg hgc hecb =>
    have hq : PNode.wfB q = true := hwf q (by simp)
    have hb : q.broken = false := (wfB_parts hq).1
    simp [getChildrenE, hb] at hgc
  | case5 q qs s cs hgc x1 x2 s1 hvc =>
    have hq : PNode.wfB q = true := hwf q (by simp)
    have hcs : cs = q.children := getChildrenE_ok hgc
    rcases visitChildren_count N cs s hc with ⟨hvc1, hvc2⟩
    have hNle : N ≤ s + cs.length := by
      by_contra hlt
      rw [hvc1 (by omega)] at hvc
      cases hvc
    rcases hvc2 hNle with ⟨d, f, hvc'⟩
    have hs1 : s1 = N := by
      rw [hvc'] at hvc
      cases hvc
      rfl
    have hlen : cs.length ≤ ndL (q :: qs) := hcs ▸ children_length_le_ndL qs hq
    refine ⟨fun h => absurd h (by omega), fun _ => ⟨[], ?_, ?_⟩⟩
    · rw [linux_walk_cons_cancel (some (countCb N)) none q qs s hgc hvc, hs1]
    · simp [entriesOf]
      omega
  | case6 q qs s cs hgc dirs files s1 hvc ts0 s20 st0 heqw ih =>
    have hq : PNode.wfB q = true := hwf q (by simp)
    have hcs : cs = q.children := getChildrenE_ok hgc
    have hch : ∀ x ∈ cs, PNode.wfB x = true := hcs ▸ (wfB_parts hq).2.2.2
    rcases visitChildren_count N cs s hc with ⟨hvc1, hvc2⟩
    have hlvl : s + cs.length < N := by
      by_contra hge
      rcases hvc2 (by omega) with ⟨d, f, hvc'⟩
      rw [hvc'] at hvc
      cases hvc
    have hvceq := hvc1 hlvl
    rw [hvceq] at hvc
    cases hvc
    have hwf2 : ∀ x ∈ qs ++ sortByFull (cs.filter isDirB), PNode.wfB x = true := by
      intro x hx
      rcases List.mem_append.mp hx with hx | hx
      · exact hwf x (List.mem_cons_of_mem _ hx)
      · exact hch x (List.mem_filter.mp ((sortByFull_perm _).subset hx)).1
    have hrestnd : ndL (qs ++ sortByFull (cs.filter isDirB))
        = ndL qs + ndL (cs.filter isDirB) := by
      rw [ndL_append]
      have := ndL_perm (sortByFull_perm (cs.filter isDirB))
      omega
    have hqnd : ndL (q :: qs) = cs.length + ndL (cs.filter isDirB) + ndL qs := by
      have := ndL_cons_wf qs hq
      rw [← hcs] at this
      exact this
    have hlevlen : (cs.filter isDirB).length + (cs.filter isFileB).length = cs.length :=
      wf_level_length hch
    have hsortlen : (sortByFull (cs.filter isDirB)).length = (cs.filter isDirB).length :=
      (sortByFull_perm _).length_eq
    have hsortlen2 : (sortByFull (cs.filter isFileB)).length = (cs.filter isFileB).length :=
      (sortByFull_perm _).length_eq
    rcases ih hwf2 (by omega) with ⟨ih1, ih2⟩
    constructor
    · intro h
      have h' : s + cs.length + ndL (qs ++ sortByFull (cs.filter isDirB)) < N := by omega
      rcases ih1 h' with ⟨ts1, heq, hcount⟩
      refine ⟨(q.full_filename, sortByFull (cs.filter isDirB), sortByFull (cs.filter isFileB))
        :: ts1, ?_, ?_⟩
      · rw [linux_walk_cons_ok (some (countCb N)) none q qs s hgc hvceq, heq]
        have harith : s + cs.length + ndL (qs ++ sortByFull (cs.filter isDirB))
            = s + ndL (q :: qs) := by omega
        rw [harith]
      · rw [entriesOf_cons]
        simp only [List.length_append]
        omega
    · intro h
      have h' : N ≤ s + cs.length + ndL (qs ++ sortByFull (cs.filter isDirB)) := by omega
      rcases ih2 h' with ⟨ts1, heq, hcount⟩
      refine ⟨(q.full_filename, sortByFull (cs.filter isDirB), sortByFull (cs.filter isFileB))
        :: ts1, ?_, ?_⟩
      · rw [linux_walk_cons_ok (some (countCb N)) none q qs s hgc hvceq, heq]
      · rw [entriesOf_cons]
        simp only [List.length_append]
        omega

/-- Full accounting of the windows walk driven by the counting callback;
identical to the linux statement (the two walks only differ in error
handling and in enqueuing order, neither of which matters here). -/
theorem win_walk_count (N : Nat) (queue : List PNode) (c : Nat)
    (hwf : ∀ x ∈ queue, PNode.wfB x = true) (hc : c < N) :
    (c + ndL queue < N →
      ∃ ts, win_walk_loop (some (countCb N)) none queue c = (ts, c + ndL queue, .completed) ∧
        (entriesOf ts).length = ndL queue) ∧
    (N ≤ c + ndL queue →
      ∃ ts, win_walk_loop (some (countCb N)) none queue c = (ts, N, .cancelled) ∧
        (entriesOf ts).length + 1 + c ≤ N) := by
  induction queue, c using win_walk_loop.induct (some (countCb N)) none with
  | case1 s =>
    refine ⟨fun _ => ⟨[], ?_, ?_⟩, fun h => ?_⟩
    · simp [win_walk_nil, ndL, flatDesc]
    · simp [entriesOf, ndL, flatDesc]
    · exact absurd hc (by simp [ndL, flatDesc] at h; omega)
  | case2 q qs s msg hgc f hf hcall ih => cases hf
  | case3 q qs s msg hgc f hf hcall => cases hf
  | case4 q qs s msg hgc hecb ih =>
    have hq : PNode.wfB q = true := hwf q (by simp)
    have hb : q.broken = false := (wfB_parts hq).1
    simp [getChildrenE, hb] at hgc
  | case5 q qs s cs hgc x1 x2 s1 hvc =>
    have hq : PNode.wfB q = true := hwf q (by simp)
    have hcs : cs = q.children := getChildrenE_ok hgc
    rcases visitChildren_count N cs s hc with ⟨hvc1, hvc2⟩
    have hNle : N ≤ s + cs.length := by
      by_contra hlt
      rw [hvc1 (by omega)] at hvc
      cases hvc
    rcases hvc2 hNle with ⟨d, f, hvc'⟩
    have hs1 : s1 = N := by
      rw [hvc'] at hvc
      cases hvc
      rfl
    have hlen : cs.length ≤ ndL (q :: qs) := hcs ▸ children_length_le_ndL qs hq
    refine ⟨fun h => absurd h (by omega), fun _ => ⟨[], ?_, ?_⟩⟩
    · rw [win_walk_cons_cancel (some (countCb N)) none q qs s hgc hvc, hs1]
    · simp [entriesOf]
      omega
  | case6 q qs s cs hgc dirs files s1 hvc ts0 s20 st0 heqw ih =>
    have hq : PNode.wfB q = true := hwf q (by simp)
    have hcs : cs = q.children := getChildrenE_ok hgc
    have hch : ∀ x ∈ cs, PNode.wfB x = true := hcs ▸ (wfB_parts hq).2.2.2
    rcases visitChildren_count N cs s hc with ⟨hvc1, hvc2⟩
    have hlvl : s + cs.length < N := by
      by_contra hge
      rcases hvc2 (by omega) with ⟨d, f, hvc'⟩
      rw [hvc'] at hvc
      cases hvc
    have hvceq := hvc1 hlvl
    rw [hvceq] at hvc
    cases hvc
    have hwf2 : ∀ x ∈ qs ++ cs.filter isDirB, PNode.wfB x = true := by
      intro x hx
      rcases List.mem_append.mp hx with hx | hx
      · exact hwf x (List.mem_cons_of_mem _ hx)
      · exact hch x (List.mem_filter.mp hx).1
    have hrestnd : ndL (qs ++ cs.filter isDirB)
        = ndL qs + ndL (cs.filter isDirB) := ndL_append _ _
    have hqnd : ndL (q :: qs) = cs.length + ndL (cs.filter isDirB) + ndL qs := by
      have := ndL_cons_wf qs hq
      rw [← hcs] at this
      exact this
    have hlevlen : (cs.filter isDirB).length + (cs.filter isFileB).length = cs.length :=
      wf_level_length hch
    have hsortlen : (sortByFull (cs.filter isDirB)).length = (cs.filter isDirB).length :=
      (sortByFull_perm _).length_eq
    have hsortlen2 : (sortByFull (cs.filter isFileB)).length = (cs.filter isFileB).length :=
      (sortByFull_perm _).length_eq
    rcases ih hwf2 (by omega) with ⟨ih1, ih2⟩
    constructor
    · intro h
      have h' : s + cs.length + ndL (qs ++ cs.filter isDirB) < N := by omega
      rcases ih1 h' with ⟨ts1, heq, hcount⟩
      refine ⟨(q.full_filename, sortByFull (cs.filter isDirB), sortByFull (cs.filter isFileB))
        :: ts1, ?_, ?_⟩
      · rw [win_walk_cons_ok (some (countCb N)) none q qs s hgc hvceq, heq]
        have harith : s + cs.length + ndL (qs ++ cs.filter isDirB)
            = s + ndL (q :: qs) := by omega
        rw [harith]
      · rw [entriesOf_cons]
        simp only [List.length_append]
        omega
    · intro h
      have h' : N ≤ s + cs.length + ndL (qs ++ cs.filter isDirB) := by omega
      rcases ih2 h' with ⟨ts1, heq, hcount⟩
      refine ⟨(q.full_filename, sortByFull (cs.filter isDirB), sortByFull (cs.filter isFileB))
        :: ts1, ?_, ?_⟩
      · rw [win_walk_cons_ok (some (countCb N)) none q qs s hgc hvceq, heq]
      · rw [entriesOf_cons]
        simp only [List.length_append]
        omega
/-! ## Claims C3, C4, C5: walk behaviour -/

theorem flatDesc_singleton (t : PNode) : flatDesc [t] = t.descList := by
  simp [flatDesc]

theorem ndL_singleton (t : PNode) : ndL [t] = t.descList.length := by
  simp [ndL, flatDesc]

/-- C5: over every well-formed finite content tree, an uncancelled walk with
no callbacks completes on both backends, and the entries of all yielded
triples are a permutation of the strict descendants of the root — each
descendant is yielded exactly once, no ancestor is revisited, and the
number of yielded directories plus files equals the total descendant
count. -/
theorem C5_walk_visits_each_descendant_once (t : PNode) (hwf : PNode.wfB t = true) :
    (∃ ts, linux_walk_loop (σ := Unit) none none [t] () = (ts, (), .completed) ∧
      List.Perm (entriesOf ts) t.descList ∧ (entriesOf ts).length = t.descList.length) ∧
    (∃ ts, win_walk_loop (σ := Unit) none none [t] () = (ts, (), .completed) ∧
      List.Perm (entriesOf ts) t.descList ∧ (entriesOf ts).length = t.descList.length) := by
  have hall : ∀ c ∈ [t], PNode.wfB c = true := by
    intro c hc
    rcases List.mem_singleton.mp hc with rfl
    exact hwf
  constructor
  · rcases linux_walk_complete [t] () hall with ⟨ts, heq, hperm⟩
    rw [flatDesc_singleton] at hperm
    exact ⟨ts, heq, hperm, hperm.length_eq⟩
  · rcases win_walk_complete [t] () hall with ⟨ts, heq, hperm⟩
    rw [flatDesc_singleton] at hperm
    exact ⟨ts, heq, hperm, hperm.length_eq⟩

def c5tree : PNode :=
  .node "r" 0 false
    [.node "r/a" 1 false [.node "r/a/f" 2 false [], .node "r/a/g" 2 false []],
     .node "r/b" 1 false [.node "r/b/c" 1 false [.node "r/b/c/h" 2 false []]],
     .node "r/x" 2 false []]

theorem C5_witness :
    (∃ ts, linux_walk_loop (σ := Unit) none none [c5tree] () = (ts, (), .completed) ∧
      List.Perm (entriesOf ts) c5tree.descList ∧
      (entriesOf ts).length = c5tree.descList.length) ∧
    (∃ ts, win_walk_loop (σ := Unit) none none [c5tree] () = (ts, (), .completed) ∧
      List.Perm (entriesOf ts) c5tree.descList ∧
      (entriesOf ts).length = c5tree.descList.length) :=
  C5_walk_visits_each_descendant_once c5tree (by decide)

/-- C4: on both backends, a visit callback returning false on the `N`-th
visited entry makes walk abort the whole traversal at that entry: the walk
ends with status cancelled (never a failure), and the total number of
entries yielded across all yielded triples is at most `N` and strictly
less than the full-tree entry count. -/
theorem C4_walk_cancellation_bounds (t : PNode) (N : Nat)
    (hwf : PNode.wfB t = true) (h1 : 1 ≤ N) (h2 : N ≤ t.descList.length) :
    (∃ ts, linux_walk_loop (some (countCb N)) none [t] 0 = (ts, N, .cancelled) ∧
      (entriesOf ts).length ≤ N ∧ (entriesOf ts).length < t.descList.length) ∧
    (∃ ts, win_walk_loop (some (countCb N)) none [t] 0 = (ts, N, .cancelled) ∧
      (entriesOf ts).length ≤ N ∧ (entriesOf ts).length < t.descList.length) := by
  have hall : ∀ c ∈ [t], PNode.wfB c = true := by
    intro c hc
    rcases List.mem_singleton.mp hc with rfl
    exact hwf
  have hnd : ndL [t] = t.descList.length := ndL_singleton t
  constructor
  · rcases (linux_walk_count N [t] 0 hall (by omega)).2 (by omega) with ⟨ts, heq, hcnt⟩
    exact ⟨ts, heq, by omega, by omega⟩
  · rcases (win_walk_count N [t] 0 hall (by omega)).2 (by omega) with ⟨ts, heq, hcnt⟩
    exact ⟨ts, heq, by omega, by omega⟩

theorem C4_witness :
    (∃ ts, linux_walk_loop (some (countCb 2)) none [c5tree] 0 = (ts, 2, .cancelled) ∧
      (entriesOf ts).length ≤ 2 ∧ (entriesOf ts).length < c5tree.descList.length) ∧
    (∃ ts, win_walk_loop (some (countCb 2)) none [c5tree] 0 = (ts, 2, .cancelled) ∧
      (entriesOf ts).length ≤ 2 ∧ (entriesOf ts).length < c5tree.descList.length) :=
  C4_walk_cancellation_bounds c5tree 2 (by decide) (by decide) (by decide)

/-! Concrete run of both walks over a tree whose node `r/b` fails child
enumeration, with no error callback supplied (claim C3). -/

def c3broken : PNode := .node "r/b" 1 true []

def c3file : PNode := .node "r/g/x" 2 false []

def c3good : PNode := .node "r/g" 1 false [c3file]

def c3root : PNode := .node "r" 1 false [c3broken, c3good]

/-- C3: with no error callback, a failure enumerating the children of a
node is fatal on the linux backend (the walk raises IOError after the
already-yielded triples), as the claim states; but on the windows backend
the same failure is silently swallowed: the walk skips the broken node
and continues, ending with status completed — the claim, the spec and the
win_access docstring (which promises IOError) all disagree with the
windows code. -/
theorem C3_win_walk_swallows_enumeration_failure :
    linux_walk_loop (σ := Unit) none none [c3root] ()
      = ([("r", [c3broken, c3good], [])], (), .failed) ∧
    win_walk_loop (σ := Unit) none none [c3root] ()
      = ([("r", [c3broken, c3good], []), ("r/g", [], [c3file])], (), .completed) := by
  have hgc_root : getChildrenE c3root = .ok [c3broken, c3good] := rfl
  have hvc_root : visitChildren (σ := Unit) none [c3broken, c3good] ()
      = ([c3broken, c3good], [], (), false) := by
    rw [visitChildren_none]
    rfl
  have hsort : sortByFull [c3broken, c3good] = [c3broken, c3good] := rfl
  have hgc_b : getChildrenE c3broken = .error "Error getting children of r/b" := rfl
  have hgc_g : getChildrenE c3good = .ok [c3file] := rfl
  have hvc_g : visitChildren (σ := Unit) none [c3file] () = ([], [c3file], (), false) := by
    rw [visitChildren_none]
    rfl
  constructor
  · rw [linux_walk_cons_ok none none c3root [] () hgc_root hvc_root, hsort]
    rw [show ([] : List PNode) ++ [c3broken, c3good] = [c3broken, c3good] from rfl]
    rw [linux_walk_cons_error_none none c3broken [c3good] () hgc_b]
    rfl
  · rw [win_walk_cons_ok none none c3root [] () hgc_root hvc_root, hsort]
    rw [show ([] : List PNode) ++ [c3broken, c3good] = [c3broken, c3good] from rfl]
    rw [win_walk_cons_error_none none c3broken [c3good] () hgc_b]
    rw [win_walk_cons_ok none none c3good [] () hgc_g hvc_g]
    rw [show ([] : List PNode) ++ ([] : List PNode) = [] from rfl]
    rw [win_walk_nil]
    rfl
/-! ## Errors

Python `IOError`/`OSError` and `IndexError` become explicit values.  The
source reports the AlreadyExists condition as an `IOError` whose message is
"Directory ... allready exists" (linux_access.py:507); it gets its own
constructor so the error taxonomy of the spec can be stated. -/

inductive PyErr where
  | ioError
  | indexError
  | alreadyExists
  deriving Repr, DecidableEq

/-! ## The gvfs mounted-filesystem backend (linux_access.py with
_gvfs_found = True)

Modelled from the spec: the per-user gvfs mount directory
(`/run/user/<uid>/gvfs`), "a POSIX-mounted virtual filesystem exposed by a
desktop session manager", is a finite directory tree; the OS calls used by
linux_access.py (`os.listdir`, `os.path.exists`, `os.path.isdir`,
`os.path.getsize`, `os.path.getmtime`, `os.mkdir`, `os.makedirs`) are
interpreted over it, resolving paths segment-wise after splitting on the
separator. -/

inductive FsNode where
  | dir (entries : List (String × FsNode))
  | file (size : Int)
  deriving Repr

/-- Resolve a segment path in the tree (first entry with a matching name). -/
def fsGet : List String → FsNode → Option FsNode
  | [], t => some t
  | seg :: rest, .dir es =>
    match es.find? (fun e => e.1 == seg) with
    | some e => fsGet rest e.2
    | none => none
  | _ :: _, .file _ => none

/-- `os.path.exists`. -/
def osExists (fs : FsNode) (p : String) : Bool :=
  (fsGet (pySplit '/' p) fs).isSome

/-- `os.path.isdir`. -/
def osIsdir (fs : FsNode) (p : String) : Bool :=
  match fsGet (pySplit '/' p) fs with
  | some (.dir _) => true
  | _ => false

/-- `os.listdir`: entry names in listing order; `OSError` when the path is
not a directory. -/
def osListdir (fs : FsNode) (p : String) : Except Unit (List String) :=
  match fsGet (pySplit '/' p) fs with
  | some (.dir es) => .ok (es.map (fun e => e.1))
  | _ => .error ()

/-- `os.path.getsize`: the byte size of a file (directories also report a
size); `OSError` (`none`) when the path does not exist. -/
def osGetsize (fs : FsNode) (p : String) : Option Int :=
  match fsGet (pySplit '/' p) fs with
  | some (.file sz) => some sz
  | some (.dir _) => some 0
  | none => none

/-- Replace the subtree of the first entry with the given name. -/
def replaceEntry (es : List (String × FsNode)) (seg : String) (t2 : FsNode) :
    List (String × FsNode) :=
  match es with
  | [] => []
  | (n, t) :: rest => if n == seg then (n, t2) :: rest else (n, t) :: replaceEntry rest seg t2

/-- `os.mkdir`-style insertion of `new` at a segment path: every parent must
exist and be a directory, and the final segment must be free. -/
def fsInsert (new : FsNode) : List String → FsNode → Option FsNode
  | [], _ => none
  | [seg], .dir es =>
    match es.find? (fun e => e.1 == seg) with
    | some _ => none
    | none => some (.dir (es ++ [(seg, new)]))
  | seg :: rest, .dir es =>
    match es.find? (fun e => e.1 == seg) with
    | some e =>
      match fsInsert new rest e.2 with
      | some t2 => some (.dir (replaceEntry es seg t2))
      | none => none
    | none => none
  | _ :: _, .file _ => none

/-- `os.makedirs(..., exist_ok=True)`: create every missing directory along
the path; fails only when some position is occupied by a file. -/
def fsMakedirs : List String → FsNode → Option FsNode
  | [], t => some t
  | seg :: rest, .dir es =>
    match es.find? (fun e => e.1 == seg) with
    | some e =>
      match fsMakedirs rest e.2 with
      | some t2 => some (.dir (replaceEntry es seg t2))
      | none => none
    | none =>
      match fsMakedirs rest (.dir []) with
      | some t2 => some (.dir (es ++ [(seg, t2)]))
      | none => none
  | _ :: _, .file _ => none

/-- `os.scandir` of the mount root: the names of its entries. -/
def fsTopNames (fs : FsNode) : Except Unit (List String) :=
  match fs with
  | .dir es => .ok (es.map (fun e => e.1))
  | .file _ => .error ()

/-! ## linux_access.py data model -/

/-- `PortableDevice` on the gvfs backend: `self._device` is the raw gvfs
entry name for the device. -/
structure GDev where
  raw : String
  deriving Repr, DecidableEq

/-- The `__init__` split of the raw entry name (linux_access.py:151-158):
`device_start_part` (first component plus "=") and `devicename` (the rest)
when "=" occurs, else an empty start part.  The further split of
`devicename` into name/description/serialnumber is not used by any claim
and is omitted. -/
def gdevParts (raw : String) : String × String :=
  if raw.data.contains '=' then
    match pySplit1 '=' raw with
    | [x, y] => (x ++ "=", y)
    | _ => ("", raw)
  else ("", raw)

/-- `PortableDeviceContent` of linux_access.py: the attributes set by the
constructor that the claims mention (`date_modified` is omitted: it is
`datetime.now()` for non-files, environment-dependent). -/
structure LinuxPDC where
  full_filename : String
  name : String
  storage_id : Nat
  entry_id : Nat
  content_type : Int
  size : Int
  deriving Repr, DecidableEq

def WPD_CONTENT_TYPE_UNDEFINED : Int := -1

def WPD_CONTENT_TYPE_STORAGE : Int := 0

def WPD_CONTENT_TYPE_DIRECTORY : Int := 1

def WPD_CONTENT_TYPE_FILE : Int := 2

def WPD_CONTENT_TYPE_DEVICE : Int := 3

/-- `PortableDeviceContent.__init__` (linux_access.py:267-301).  `size`
starts at -1; for `typ == FILE` on gvfs it is read from the filesystem
(`fsSize`/`fsTimeOk` are the outcomes of `os.path.getsize` and
`os.path.getmtime` at `device_start_part + dirpath`; on an `OSError` the
node is reclassified as STORAGE), on libmtp the `size` argument is taken;
for `typ == DEVICE` the full name is replaced by the devicename. -/
def linux_pdc_init (devicename : String) (gvfs : Bool) (fsSize : Option Int) (fsTimeOk : Bool)
    (dirpath : String) (storage_id entry_id : Nat) (typ : Int) (size : Int) : LinuxPDC :=
  let base : LinuxPDC :=
    { full_filename := dirpath, name := pyBasename '/' dirpath,
      storage_id := storage_id, entry_id := entry_id, content_type := typ, size := -1 }
  if typ == WPD_CONTENT_TYPE_FILE then
    if gvfs then
      match fsSize with
      | none => { base with content_type := WPD_CONTENT_TYPE_STORAGE }
      | some s =>
        if fsTimeOk then { base with size := s }
        else { base with size := s, content_type := WPD_CONTENT_TYPE_STORAGE }
    else { base with size := size }
  else if typ == WPD_CONTENT_TYPE_DEVICE then { base with full_filename := devicename }
  else base

/-- `PortableDevice.get_content` on gvfs (linux_access.py:207-213, 228-229):
one STORAGE node per entry of the device directory, sorted by name. -/
def linux_gvfs_get_content (fs : FsNode) (d : GDev) : Except Unit (List LinuxPDC) :=
  match osListdir fs d.raw with
  | .error _ => .error ()
  | .ok entries =>
    .ok (pySortBy (fun a b => strLe a.name b.name)
      (entries.map (fun entry =>
        linux_pdc_init (gdevParts d.raw).2 true none false
          (pjoin '/' (gdevParts d.raw).2 entry) 0 0 WPD_CONTENT_TYPE_STORAGE 0)))

/-! ## The libmtp backend (linux_access.py with _gvfs_found = False)

`mtp.pylibmtp` is part of this repository but absent from `src/`; its
observable behaviour is modelled from the spec. -/

def LIBMTP_FILES_AND_FOLDERS_ROOT : Nat := 4294967295

/-- One object of the device object table (the fields of pylibmtp entries
that linux_access.py reads: item_id, parent/storage ids, filename, whether
the filetype is FOLDER, filesize; modificationdate omitted with
date_modified). -/
structure MtpObj where
  item_id : Nat
  parent_id : Nat
  storage_id : Nat
  filename : String
  is_folder : Bool
  filesize : Int
  deriving Repr, DecidableEq

/-- A connected libmtp device: its composite devicename
(`name_description_serial`), the storages (name, storage id), the object
table in listing order and the next fresh object id. -/
structure MtpDev where
  devicename : String
  storages : List (String × Nat)
  objects : List MtpObj
  next_id : Nat
  deriving Repr, DecidableEq

/-- Modelled from the spec: pylibmtp `get_files_and_folder` — "entries come
from a protocol listing call keyed by storage id + parent object id". -/
def mtp_get_files_and_folder (st : MtpDev) (sid pid : Nat) : List MtpObj :=
  st.objects.filter (fun o => o.storage_id == sid && o.parent_id == pid)

/-- Modelled from the spec: pylibmtp `create_folder` — the "protocol
folder-creation call"; adds a folder object with a fresh id under the given
parent (MTP permits same-named siblings; no collision check) and returns
the new id. -/
def mtp_create_folder (st : MtpDev) (name : String) (pid sid : Nat) : Nat × MtpDev :=
  (st.next_id,
   { st with objects := st.objects ++ [⟨st.next_id, pid, sid, name, true, 0⟩],
             next_id := st.next_id + 1 })

/-- `PortableDevice.get_content` on libmtp (linux_access.py:214-229): one
STORAGE node per storage, entry id the libmtp listing root, sorted by
name. -/
def linux_mtp_get_content (st : MtpDev) : List LinuxPDC :=
  pySortBy (fun a b => strLe a.name b.name)
    (st.storages.map (fun e =>
      linux_pdc_init st.devicename false none false
        (pjoin '/' st.devicename e.1) e.2 LIBMTP_FILES_AND_FOLDERS_ROOT
        WPD_CONTENT_TYPE_STORAGE 0))

/-- `PortableDeviceContent.get_child` on libmtp (linux_access.py:394-418):
first listing entry with the exact name, built into a DIRECTORY or FILE
node. -/
def linux_mtp_get_child (st : MtpDev) (cont : LinuxPDC) (name : String) : Option LinuxPDC :=
  match (mtp_get_files_and_folder st cont.storage_id cont.entry_id).find?
      (fun o => o.filename == name) with
  | some o =>
    some (linux_pdc_init st.devicename false none false
      (pjoin '/' cont.full_filename o.filename) cont.storage_id o.item_id
      (if o.is_folder then WPD_CONTENT_TYPE_DIRECTORY else WPD_CONTENT_TYPE_FILE) o.filesize)
  | none => none

/-- `PortableDeviceContent.get_child` on gvfs (linux_access.py:380-393). -/
def linux_gvfs_get_child (fs : FsNode) (d : GDev) (cont : LinuxPDC) (name : String) :
    Option LinuxPDC :=
  let fullname := pjoin '/' ((gdevParts d.raw).1 ++ cont.full_filename) name
  if osExists fs fullname then
    some (linux_pdc_init (gdevParts d.raw).2 true
      (osGetsize fs ((gdevParts d.raw).1 ++ pjoin '/' cont.full_filename name))
      (osExists fs ((gdevParts d.raw).1 ++ pjoin '/' cont.full_filename name))
      (pjoin '/' cont.full_filename name) 1 1
      (if osIsdir fs fullname then WPD_CONTENT_TYPE_DIRECTORY else WPD_CONTENT_TYPE_FILE) 0)
  else none

/-- The `for pp in parts[2:]` resolution loop of
`get_content_from_device_path` (linux_access.py:739-743): strict-name
`get_child` chaining, absent as soon as one segment is absent. -/
def linux_mtp_resolve (st : MtpDev) : LinuxPDC → List String → Option LinuxPDC
  | cont, [] => some cont
  | cont, p :: ps =>
    match linux_mtp_get_child st cont p with
    | none => none
    | some c => linux_mtp_resolve st c ps

/-- `get_content_from_device_path` on gvfs (linux_access.py:711-727). -/
def linux_gcdp_gvfs (fs : FsNode) (d : GDev) (fpath0 : String) : Except PyErr (Option LinuxPDC) :=
  let fpath := pyReplace '\\' '/' fpath0
  if fpath == (gdevParts d.raw).2 then .error .ioError
  else
    let full := (gdevParts d.raw).1 ++ fpath
    if osExists fs full then
      .ok (some (linux_pdc_init (gdevParts d.raw).2 true (osGetsize fs full) (osExists fs full)
        fpath 1 1
        (if osIsdir fs full then WPD_CONTENT_TYPE_DIRECTORY else WPD_CONTENT_TYPE_FILE) 0))
    else .ok none

/-- `get_content_from_device_path` on libmtp (linux_access.py:711-713,
728-743): splits the path, raises IOError when devicename and storage are
not both present or when the storage is not found, then resolves the
remaining segments via `get_child` (absent segment: `None`). -/
def linux_gcdp_mtp (st : MtpDev) (fpath0 : String) : Except PyErr (Option LinuxPDC) :=
  let fpath := pyReplace '\\' '/' fpath0
  if fpath == st.devicename then .error .ioError
  else
    match pySplit '/' fpath with
    | p0 :: p1 :: rest =>
      let storname := pjoin '/' p0 p1
      match (linux_mtp_get_content st).find? (fun stor => stor.full_filename == storname) with
      | none => .error .ioError
      | some stor => .ok (linux_mtp_resolve st stor rest)
    | _ => .error .indexError
/-- `PortableDeviceContent.create_content` on gvfs (linux_access.py:501-509):
existence check first — an existing same-named entry raises the
"allready exists" IOError — then `os.mkdir` and a DIRECTORY node. -/
def linux_gvfs_create_content (fs : FsNode) (d : GDev) (cont : LinuxPDC) (dirname : String) :
    Except PyErr (FsNode × LinuxPDC) :=
  let fullname := pjoin '/' cont.full_filename dirname
  let real := (gdevParts d.raw).1 ++ fullname
  if osExists fs real then .error .alreadyExists
  else
    match fsInsert (.dir []) (pySplit '/' real) fs with
    | some fs2 =>
      .ok (fs2, linux_pdc_init (gdevParts d.raw).2 true none false fullname 0 0
        WPD_CONTENT_TYPE_DIRECTORY 0)
    | none => .error .ioError

/-- `PortableDeviceContent.create_content` on libmtp
(linux_access.py:510-520): no existence check; issues the folder-creation
call and builds a DIRECTORY node from the fresh id. -/
def linux_mtp_create_content (st : MtpDev) (cont : LinuxPDC) (dirname : String) :
    MtpDev × LinuxPDC :=
  let r := mtp_create_folder st dirname cont.entry_id cont.storage_id
  (r.2, linux_pdc_init st.devicename false none false
    (pjoin '/' cont.full_filename dirname) cont.storage_id r.1 WPD_CONTENT_TYPE_DIRECTORY 0)

/-- `makedirs` on gvfs (linux_access.py:856-868): `os.makedirs(...,
exist_ok=True)` when the full path does not yet exist, then re-resolution
via `get_content_from_device_path`; every failure surfaces as IOError. -/
def linux_gvfs_makedirs (fs : FsNode) (d : GDev) (create_path : String) :
    Except PyErr (FsNode × LinuxPDC) :=
  let path := pyReplace '\\' '/' create_path
  let fullpath := (gdevParts d.raw).1 ++ path
  let step : Except PyErr FsNode :=
    if osExists fs fullpath then .ok fs
    else
      match fsMakedirs (pySplit '/' fullpath) fs with
      | some fs2 => .ok fs2
      | none => .error .ioError
  match step with
  | .error e => .error e
  | .ok fs2 =>
    match linux_gcdp_gvfs fs2 d path with
    | .error _ => .error .ioError
    | .ok none => .error .ioError
    | .ok (some cont) => .ok (fs2, cont)

/-- The `for pp in parts[2:]` loop of `makedirs` on libmtp
(linux_access.py:882-886): descend via `get_child`, creating a directory
for each absent segment. -/
def linux_mtp_mdloop : MtpDev → LinuxPDC → List String → MtpDev × LinuxPDC
  | st, cont, [] => (st, cont)
  | st, cont, pp :: ps =>
    match linux_mtp_get_child st cont pp with
    | some c => linux_mtp_mdloop st c ps
    | none =>
      let r := linux_mtp_create_content st cont pp
      linux_mtp_mdloop r.1 r.2 ps

/-- `makedirs` on libmtp (linux_access.py:869-887): requires devicename,
storage and at least one further segment; IOError when the storage cannot
be found; then the segment loop. -/
def linux_mtp_makedirs (st : MtpDev) (create_path : String) :
    Except PyErr (MtpDev × LinuxPDC) :=
  let path := pyReplace '\\' '/' create_path
  match pySplit '/' path with
  | p0 :: p1 :: rest =>
    if rest.isEmpty then .error .ioError
    else
      let storname := pjoin '/' p0 p1
      match (linux_mtp_get_content st).find? (fun stor => stor.full_filename == storname) with
      | none => .error .ioError
      | some stor => .ok (linux_mtp_mdloop st stor rest)
  | _ => .error .ioError

/-- `PortableDeviceContent.get_path` on gvfs (linux_access.py:443-464): the
common prefix handling — full path delegated to
`get_content_from_device_path`; a leading segment equal to the node's own
name is split off with `path.split(os.sep, 1)[1]`, an IndexError when the
path has no separator — then a direct existence check. -/
def linux_gvfs_get_path (fs : FsNode) (d : GDev) (selfc : LinuxPDC) (path0 : String) :
    Except PyErr (Option LinuxPDC) :=
  let path := pyReplace '\\' '/' path0
  let start := (pySplit1 '/' path).headD path
  if start == (gdevParts d.raw).2 then linux_gcdp_gvfs fs d path
  else
    let step : Except PyErr String :=
      if start == selfc.name then
        match pySplit1 '/' path with
        | [_, y] => .ok y
        | _ => .error .indexError
      else .ok path
    match step with
    | .error e => .error e
    | .ok path2 =>
      let full := pjoin '/' ((gdevParts d.raw).1 ++ selfc.full_filename) path2
      if osExists fs full then
        .ok (some (linux_pdc_init (gdevParts d.raw).2 true
          (osGetsize fs ((gdevParts d.raw).1 ++ pjoin '/' selfc.full_filename path2))
          (osExists fs ((gdevParts d.raw).1 ++ pjoin '/' selfc.full_filename path2))
          (pjoin '/' selfc.full_filename path2) 1 1
          (if osIsdir fs full then WPD_CONTENT_TYPE_DIRECTORY else WPD_CONTENT_TYPE_FILE) 0))
      else .ok none

/-- `PortableDeviceContent.get_path` on libmtp (linux_access.py:443-448,
465-471): same prefix handling, then a `get_child` chain over the split
path. -/
def linux_mtp_get_path (st : MtpDev) (selfc : LinuxPDC) (path0 : String) :
    Except PyErr (Option LinuxPDC) :=
  let path := pyReplace '\\' '/' path0
  let start := (pySplit1 '/' path).headD path
  if start == st.devicename then linux_gcdp_mtp st path
  else
    let step : Except PyErr String :=
      if start == selfc.name then
        match pySplit1 '/' path with
        | [_, y] => .ok y
        | _ => .error .indexError
      else .ok path
    match step with
    | .error e => .error e
    | .ok path2 => .ok (linux_mtp_resolve st selfc (pySplit '/' path2))

/-- The device loop of `get_portable_devices` on gvfs
(linux_access.py:676-681): one device per gvfs root entry, kept only when
its storage listing is non-empty. -/
def linux_gvfs_gpd_loop (fs : FsNode) : List String → Except Unit (List GDev)
  | [] => .ok []
  | raw :: rest =>
    match linux_gvfs_get_content fs (GDev.mk raw) with
    | .error _ => .error ()
    | .ok conts =>
      match linux_gvfs_gpd_loop fs rest with
      | .error _ => .error ()
      | .ok devs => .ok (if conts.length != 0 then GDev.mk raw :: devs else devs)

/-- `get_portable_devices` on gvfs (linux_access.py:675-682). -/
def linux_gvfs_get_portable_devices (fs : FsNode) : Except Unit (List GDev) :=
  match fsTopNames fs with
  | .error _ => .error ()
  | .ok names => linux_gvfs_gpd_loop fs names

/-- The device loop of `get_portable_devices` on libmtp
(linux_access.py:670-674): one device per detected raw device, kept only
when its storage listing is non-empty. -/
def linux_mtp_gpd_loop : List MtpDev → List MtpDev
  | [] => []
  | d :: rest =>
    if (linux_mtp_get_content d).length != 0 then d :: linux_mtp_gpd_loop rest
    else linux_mtp_gpd_loop rest

/-- `get_portable_devices` on libmtp (linux_access.py:663-674), over the
devices reported by `detect_devices`. -/
def linux_mtp_get_portable_devices (devs : List MtpDev) : List MtpDev :=
  linux_mtp_gpd_loop devs
/-! ## The Windows WPD/COM backend (win_access.py)

The COM interfaces (`IPortableDevice*`) are external; their observable
behaviour is modelled from the spec: objects are addressed by object id,
children are enumerated from a per-device object table in enumeration
order, and creation is the "COM object-properties-only creation".  GUID
constants keep the source values without the surrounding braces. -/

def WPD_GUID_STORAGE : String := "23F05BBC-15DE-4C2A-A55B-A9AF5CE412EF"

def WPD_GUID_FUNCTIONAL : String := "99ED0160-17FF-4C44-9D98-1D7A6F941921"

def WPD_GUID_FOLDER : String := "27E2E392-A111-48E0-AB0C-E17705A05F85"

/-- The property values `_get_properties` reads for one object: the two
name properties (absent when the COM read raises), the content-type GUID,
the object size and the serial number; `WPD_OBJECT_DATE_MODIFIED` is
omitted (its FILETIME-to-datetime conversion is floating-point). -/
structure WinProps where
  objName : Option String
  origName : Option String
  contentId : String
  objSize : Int
  serial : Option String
  deriving Repr, DecidableEq

/-- `PortableDeviceContent` of win_access.py: the attributes set by
`_get_properties` plus the object id. -/
structure WNode where
  object_id : Nat
  name : String
  content_type : Int
  full_filename : String
  size : Int
  serialnumber : String
  deriving Repr, DecidableEq

/-- `PortableDeviceContent._get_properties` (win_access.py:238-289).  A
missing `WPD_OBJECT_NAME` makes the node a DIRECTORY with empty name, but
the classification below always overwrites `content_type`: the storage and
functional-object GUIDs give STORAGE (and read the serial number,
suppressing errors); the folder GUID gives DIRECTORY, anything else FILE —
and in both of those cases `size` is read from `WPD_OBJECT_SIZE`, while a
STORAGE keeps the constructor's `-1`.  The full name joins the parent path
with the plain name. -/
def win_get_properties (object_id : Nat) (parent_path : String) (p : WinProps) : WNode :=
  let plain1 : String :=
    match p.objName with
    | none => ""
    | some v => v
  let plain : String :=
    match p.origName with
    | none => plain1
    | some v => v
  if p.contentId == WPD_GUID_STORAGE || p.contentId == WPD_GUID_FUNCTIONAL then
    { object_id := object_id, name := plain, content_type := WPD_CONTENT_TYPE_STORAGE,
      full_filename := pjoin '\\' parent_path plain, size := -1,
      serialnumber := p.serial.getD "" }
  else
    { object_id := object_id, name := plain,
      content_type :=
        if p.contentId == WPD_GUID_FOLDER then WPD_CONTENT_TYPE_DIRECTORY
        else WPD_CONTENT_TYPE_FILE,
      full_filename := pjoin '\\' parent_path plain, size := p.objSize,
      serialnumber := "" }

/-- One object of the device object table: id, parent id, the property
values the code reads.  Storages are the children of the device root
(parent id 0). -/
structure WObj where
  object_id : Nat
  parent_id : Nat
  name : String
  contentId : String
  size : Int
  serial : Option String
  deriving Repr, DecidableEq

/-- A connected WPD device: its devicename (`name_description_serial`,
assembled in `PortableDevice.__init__`), the object table in enumeration
order, and the next fresh object id (0 is the device root). -/
structure WinDev where
  devicename : String
  objects : List WObj
  next_id : Nat
  deriving Repr, DecidableEq

def wobjProps (o : WObj) : WinProps :=
  ⟨some o.name, some o.name, o.contentId, o.size, o.serial⟩

/-- Modelled from the spec: `EnumObjects` — "entries are pulled one id at a
time over the automation interface", children of a parent object id in
table order. -/
def win_enum_objects (st : WinDev) (pid : Nat) : List WObj :=
  st.objects.filter (fun o => o.parent_id == pid)

/-- `PortableDeviceContent.get_children` (win_access.py:291-329): one node
per enumerated child id, with the current node's full name as parent
path. -/
def win_get_children (st : WinDev) (n : WNode) : List WNode :=
  (win_enum_objects st n.object_id).map
    (fun o => win_get_properties o.object_id n.full_filename (wobjProps o))

/-- `PortableDeviceContent.get_child` (win_access.py:331-353): the first
child whose name matches exactly. -/
def win_get_child (st : WinDev) (n : WNode) (name : String) : Option WNode :=
  (win_get_children st n).find? (fun c => c.name == name)

/-- The device-root content node `PortableDevice._pdc`
(win_access.py:652-657): object id "DEVICE" (modelled as 0); its
`full_filename` is overwritten with the devicename right after
construction; the device object carries the functional-object GUID, so
`_get_properties` classifies it as STORAGE with `size = -1`. -/
def win_root_pdc (st : WinDev) : WNode :=
  { object_id := 0, name := "", content_type := WPD_CONTENT_TYPE_STORAGE,
    full_filename := st.devicename, size := -1, serialnumber := "" }

/-- `PortableDevice.get_content` (win_access.py:711-730):
`list(self._pdc.get_children())` — the storages in enumeration order, with
no sorting. -/
def win_get_content (st : WinDev) : List WNode :=
  win_get_children st (win_root_pdc st)

/-- The `for part in path_parts[2:]` loop of `get_content_from_device_path`
(win_access.py:816-820). -/
def win_resolve (st : WinDev) : WNode → List String → Option WNode
  | cont, [] => some cont
  | cont, p :: ps =>
    match win_get_child st cont p with
    | none => none
    | some c => win_resolve st c ps

/-- `get_content_from_device_path` (win_access.py:780-823): normalise
separators, require at least devicename and storage (IOError otherwise),
return None when the devicename does not match, find the storage by name
among `get_content` (None when absent), then resolve the rest. -/
def win_gcdp (st : WinDev) (path0 : String) : Except PyErr (Option WNode) :=
  let path := pyReplace '/' '\\' (pyReplace '\\' '\\' path0)
  match pySplit '\\' path with
  | p0 :: p1 :: rest =>
    if p0 == st.devicename then
      match (win_get_content st).find? (fun e => e.name == p1) with
      | none => .ok none
      | some stor => .ok (win_resolve st stor rest)
    else .ok none
  | _ => .error .ioError

/-- `PortableDeviceContent.get_path` (win_access.py:355-389): "/" is
normalised, a full path is delegated to `get_content_from_device_path`, a
leading segment equal to the node's own name is split off with
`name.split(os.sep, 1)[1]` — an IndexError when the path has no
separator — then a `get_child` chain. -/
def win_get_path (st : WinDev) (selfc : WNode) (path0 : String) : Except PyErr (Option WNode) :=
  let name := pyReplace '/' '\\' path0
  let start := (pySplit1 '\\' name).headD name
  if start == st.devicename then win_gcdp st name
  else
    let step : Except PyErr String :=
      if start == selfc.name then
        match pySplit1 '\\' name with
        | [_, y] => .ok y
        | _ => .error .indexError
      else .ok name
    match step with
    | .error e => .error e
    | .ok name2 => .ok (win_resolve st selfc (pySplit '\\' name2))

/-- `PortableDeviceContent.create_content` (win_access.py:395-439): no
existence check; the COM `CreateObjectWithPropertiesOnly` call is modelled
from the spec as appending a folder object with a fresh id (WPD permits
same-named siblings), then `get_child(dirname)` re-resolves — the *first*
same-named child, which is a pre-existing one when the name collided. -/
def win_create_content (st : WinDev) (selfc : WNode) (dirname : String) :
    Except PyErr (WinDev × WNode) :=
  let st2 : WinDev :=
    { st with
        objects := st.objects ++ [⟨st.next_id, selfc.object_id, dirname, WPD_GUID_FOLDER, 0, none⟩],
        next_id := st.next_id + 1 }
  match win_get_child st2 selfc dirname with
  | some pdc => .ok (st2, pdc)
  | none => .error .ioError

/-- The `for dirname in parts[1:]` loop of `makedirs`
(win_access.py:932-939): empty segments are skipped; each prefix is
re-resolved from the device root, and an unresolved prefix triggers
creation under the node reached so far. -/
def win_md_loop (st : WinDev) (content : WNode) (path_int : String) :
    List String → Except PyErr (WinDev × WNode)
  | [] => .ok (st, content)
  | dirname :: rest =>
    if dirname == "" then win_md_loop st content path_int rest
    else
      let path_int2 := pjoin '\\' path_int dirname
      match win_gcdp st path_int2 with
      | .error e => .error e
      | .ok (some z) => win_md_loop st z path_int2 rest
      | .ok none =>
        match win_create_content st content dirname with
        | .error e => .error e
        | .ok r => win_md_loop r.1 r.2 path_int2 rest

/-- `makedirs` (win_access.py:903-942): starts from the first storage
(`dev.get_content()[0]` — an IndexError when there is none), then the
prefix loop. -/
def win_makedirs (st : WinDev) (path0 : String) : Except PyErr (WinDev × WNode) :=
  match win_get_content st with
  | [] => .error .indexError
  | content0 :: _ =>
    let path := pyReplace '/' '\\' (pyReplace '\\' '\\' path0)
    match pySplit '\\' path with
    | [] => .error .ioError
    | p0 :: rest => win_md_loop st content0 p0 rest

/-- `get_portable_devices` (win_access.py:740-777): one `PortableDevice`
per non-null pnp id — the storage listing is never consulted.  The opaque
construction from an id is modelled by attaching the device state to the
id. -/
def win_get_portable_devices : List (Option WinDev) → List WinDev
  | [] => []
  | some d :: rest => d :: win_get_portable_devices rest
  | none :: rest => win_get_portable_devices rest
/-! ## Claim C1: get_content ordering -/

def c1dev : WinDev :=
  ⟨"Dev_X_1",
   [⟨1, 0, "B", WPD_GUID_STORAGE, 0, none⟩, ⟨2, 0, "A", WPD_GUID_STORAGE, 0, none⟩],
   3⟩

/-- C1 counterexample: on the Windows backend `get_content` returns the
storages in backend enumeration order with no sorting — a device whose
backend reports storages B then A yields names ["B", "A"], which is not
ascending; the claim fails on this backend. -/
theorem C1_counterexample :
    (win_get_content c1dev).map WNode.name = ["B", "A"] ∧
    ¬ ((win_get_content c1dev).map WNode.name).Pairwise (fun a b => strLe a b = true) := by
  constructor
  · rfl
  · decide

theorem win_props_name (oid : Nat) (pp : String) (o : WObj) :
    (win_get_properties oid pp (wobjProps o)).name = o.name := by
  rw [win_get_properties]
  split
  · rfl
  · rfl

/-- C1 amended: `get_content` returns the storages sorted by name ascending
on both Linux backends (gvfs sorts the listing, libmtp sorts the storage
table, each being a permutation of what the backend returned); on the
Windows backend `get_content` returns the storages in backend enumeration
order, unsorted. -/
theorem C1_get_content_sorted (fs : FsNode) (d : GDev) (entries : List String)
    (mst : MtpDev) (wst : WinDev)
    (hls : osListdir fs d.raw = .ok entries) :
    (∃ l, linux_gvfs_get_content fs d = .ok l ∧
      l.Pairwise (fun a b => strLe a.name b.name = true) ∧
      List.Perm l (entries.map (fun entry =>
        linux_pdc_init (gdevParts d.raw).2 true none false
          (pjoin '/' (gdevParts d.raw).2 entry) 0 0 WPD_CONTENT_TYPE_STORAGE 0))) ∧
    ((linux_mtp_get_content mst).Pairwise (fun a b => strLe a.name b.name = true) ∧
      List.Perm (linux_mtp_get_content mst) (mst.storages.map (fun e =>
        linux_pdc_init mst.devicename false none false
          (pjoin '/' mst.devicename e.1) e.2 LIBMTP_FILES_AND_FOLDERS_ROOT
          WPD_CONTENT_TYPE_STORAGE 0))) ∧
    (win_get_content wst).map WNode.name = (win_enum_objects wst 0).map WObj.name := by
  refine ⟨?_, ⟨?_, ?_⟩, ?_⟩
  · refine ⟨pySortBy (fun a b : LinuxPDC => strLe a.name b.name)
        (entries.map (fun entry =>
          linux_pdc_init (gdevParts d.raw).2 true none false
            (pjoin '/' (gdevParts d.raw).2 entry) 0 0 WPD_CONTENT_TYPE_STORAGE 0)),
      ?_, ?_, ?_⟩
    · rw [linux_gvfs_get_content, hls]
    · exact pySortBy_sorted (fun a b : LinuxPDC => strLe a.name b.name)
        (fun a b => strLe_total a.name b.name) (fun h1 h2 => strLe_trans h1 h2) _
    · exact pySortBy_perm _ _
  · exact pySortBy_sorted (fun a b : LinuxPDC => strLe a.name b.name)
      (fun a b => strLe_total a.name b.name) (fun h1 h2 => strLe_trans h1 h2) _
  · exact pySortBy_perm _ _
  · rw [win_get_content, win_get_children, win_root_pdc]
    rw [List.map_map]
    exact List.map_congr_left (fun o _ => win_props_name o.object_id wst.devicename o)

def c1fs : FsNode :=
  .dir [("mtp:host=Dev_X_1", .dir [("S2", .dir []), ("S1", .dir [])])]

def c1mdev : MtpDev := ⟨"D_E_S", [("T2", 2), ("T1", 1)], [], 3⟩

theorem C1_witness :
    (∃ l, linux_gvfs_get_content c1fs (GDev.mk "mtp:host=Dev_X_1") = .ok l ∧
      l.Pairwise (fun a b => strLe a.name b.name = true) ∧
      List.Perm l ((["S2", "S1"] : List String).map (fun entry =>
        linux_pdc_init (gdevParts (GDev.mk "mtp:host=Dev_X_1").raw).2 true none false
          (pjoin '/' (gdevParts (GDev.mk "mtp:host=Dev_X_1").raw).2 entry) 0 0
          WPD_CONTENT_TYPE_STORAGE 0))) ∧
    ((linux_mtp_get_content c1mdev).Pairwise (fun a b => strLe a.name b.name = true) ∧
      List.Perm (linux_mtp_get_content c1mdev) (c1mdev.storages.map (fun e =>
        linux_pdc_init c1mdev.devicename false none false
          (pjoin '/' c1mdev.devicename e.1) e.2 LIBMTP_FILES_AND_FOLDERS_ROOT
          WPD_CONTENT_TYPE_STORAGE 0))) ∧
    (win_get_content c1dev).map WNode.name = (win_enum_objects c1dev 0).map WObj.name :=
  C1_get_content_sorted c1fs (GDev.mk "mtp:host=Dev_X_1") ["S2", "S1"] c1mdev c1dev rfl

/-! ## Claim C2: device discovery filtering -/

def c2dev : WinDev := ⟨"D_E_S", [], 1⟩

/-- C2 counterexample: the Windows `get_portable_devices` never consults the
storage listing — a device exposing zero storages is still returned. -/
theorem C2_counterexample :
    win_get_portable_devices [some c2dev] = [c2dev] ∧ win_get_content c2dev = [] := by
  constructor
  · rfl
  · rfl

/-- C2 amended: both Linux variants return exactly the candidate devices
whose storage listing is non-empty (omitted devices are dropped silently,
not reported); the Windows variant returns one device per non-null pnp id
regardless of its storages. -/
theorem C2_enumeration_filters (fs : FsNode) (names : List String) (devs : List GDev)
    (mdevs : List MtpDev) (ids : List (Option WinDev))
    (hloop : linux_gvfs_gpd_loop fs names = .ok devs) :
    (∀ d : GDev, d ∈ devs ↔
      (d.raw ∈ names ∧ ∃ l, linux_gvfs_get_content fs d = .ok l ∧ l ≠ [])) ∧
    (∀ d : MtpDev, d ∈ linux_mtp_get_portable_devices mdevs ↔
      (d ∈ mdevs ∧ linux_mtp_get_content d ≠ [])) ∧
    (∀ d : WinDev, some d ∈ ids → d ∈ win_get_portable_devices ids) := by
  refine ⟨?_, ?_, ?_⟩
  · intro d
    induction names generalizing devs with
    | nil =>
      rw [linux_gvfs_gpd_loop] at hloop
      injection hloop with h
      subst h
      simp
    | cons raw rest ih =>
      rw [linux_gvfs_gpd_loop] at hloop
      rcases hgc : linux_gvfs_get_content fs (GDev.mk raw) with e | conts
      · rw [hgc] at hloop
        cases hloop
      · rw [hgc] at hloop
        rcases hrec : linux_gvfs_gpd_loop fs rest with e | devs'
        · rw [hrec] at hloop
          cases hloop
        · rw [hrec] at hloop
          injection hloop with h
          subst h
          have ihd := ih devs' hrec
          constructor
          · intro hmem
            by_cases hne : (conts.length != 0) = true
            · rw [if_pos hne] at hmem
              rcases List.mem_cons.mp hmem with heq | hmem2
              · subst heq
                refine ⟨List.mem_cons_self .., conts, hgc, ?_⟩
                intro hnil
                subst hnil
                simp at hne
              · rcases ihd.mp hmem2 with ⟨hraw, l, hl, hlne⟩
                exact ⟨List.mem_cons_of_mem _ hraw, l, hl, hlne⟩
            · rw [if_neg hne] at hmem
              rcases ihd.mp hmem with ⟨hraw, l, hl, hlne⟩
              exact ⟨List.mem_cons_of_mem _ hraw, l, hl, hlne⟩
          · rintro ⟨hraw, l, hl, hlne⟩
            rcases List.mem_cons.mp hraw with heq | hmem2
            · have hd : d = GDev.mk raw := by
                cases d
                simp only at heq
                rw [heq]
              subst hd
              rw [hgc] at hl
              injection hl with hl
              have hne : (conts.length != 0) = true := by
                simp only [bne_iff_ne, ne_eq, List.length_eq_zero]
                rw [hl]
                exact hlne
              rw [if_pos hne]
              exact List.mem_cons_self ..
            · have hmem3 : d ∈ devs' := ihd.mpr ⟨hmem2, l, hl, hlne⟩
              by_cases hne : (conts.length != 0) = true
              · rw [if_pos hne]
                exact List.mem_cons_of_mem _ hmem3
              · rw [if_neg hne]
                exact hmem3
  · intro d
    induction mdevs with
    | nil => simp [linux_mtp_get_portable_devices, linux_mtp_gpd_loop]
    | cons x rest ih =>
      simp only [linux_mtp_get_portable_devices, linux_mtp_gpd_loop] at ih ⊢
      constructor
      · intro hmem
        by_cases hne : ((linux_mtp_get_content x).length != 0) = true
        · rw [if_pos hne] at hmem
          rcases List.mem_cons.mp hmem with heq | hmem2
          · subst heq
            refine ⟨List.mem_cons_self .., ?_⟩
            intro hnil
            rw [hnil] at hne
            simp at hne
          · rcases ih.mp hmem2 with ⟨hm, hnempty⟩
            exact ⟨List.mem_cons_of_mem _ hm, hnempty⟩
        · rw [if_neg hne] at hmem
          rcases ih.mp hmem with ⟨hm, hnempty⟩
          exact ⟨List.mem_cons_of_mem _ hm, hnempty⟩
      · rintro ⟨hm, hnempty⟩
        rcases List.mem_cons.mp hm with heq | hmem2
        · subst heq
          have hne : ((linux_mtp_get_content d).length != 0) = true := by
            simp only [bne_iff_ne, ne_eq, List.length_eq_zero]
            exact hnempty
          rw [if_pos hne]
          exact List.mem_cons_self ..
        · have hmem3 : d ∈ linux_mtp_gpd_loop rest := ih.mpr ⟨hmem2, hnempty⟩
          by_cases hne : ((linux_mtp_get_content x).length != 0) = true
          · rw [if_pos hne]
            exact List.mem_cons_of_mem _ hmem3
          · rw [if_neg hne]
            exact hmem3
  · intro d
    induction ids with
    | nil => simp
    | cons x rest ih =>
      intro hmem
      rcases List.mem_cons.mp hmem with hx | hx
      · rw [← hx]
        rw [win_get_portable_devices]
        exact List.mem_cons_self ..
      · cases x with
        | none =>
          rw [win_get_portable_devices]
          exact ih hx
        | some y =>
          rw [win_get_portable_devices]
          exact List.mem_cons_of_mem _ (ih hx)

def c2fs : FsNode :=
  .dir [("mtp:host=Dev1", .dir [("S1", .dir [])]), ("mtp:host=Dev2", .dir [])]

def c2mdevA : MtpDev := ⟨"A_A_1", [("S", 1)], [], 2⟩

def c2mdevB : MtpDev := ⟨"B_B_2", [], [], 1⟩

theorem C2_witness :
    (∀ d : GDev, d ∈ [GDev.mk "mtp:host=Dev1"] ↔
      (d.raw ∈ ["mtp:host=Dev1", "mtp:host=Dev2"] ∧
        ∃ l, linux_gvfs_get_content c2fs d = .ok l ∧ l ≠ [])) ∧
    (∀ d : MtpDev, d ∈ linux_mtp_get_portable_devices [c2mdevA, c2mdevB] ↔
      (d ∈ [c2mdevA, c2mdevB] ∧ linux_mtp_get_content d ≠ [])) ∧
    (∀ d : WinDev, some d ∈ [some c2dev] → d ∈ win_get_portable_devices [some c2dev]) :=
  C2_enumeration_filters c2fs ["mtp:host=Dev1", "mtp:host=Dev2"] [GDev.mk "mtp:host=Dev1"]
    [c2mdevA, c2mdevB] [some c2dev] (by rfl)
/-! ## Claim C9: size is -1 outside File nodes -/

/-- C9 counterexample: in `_get_properties` on the Windows backend the
`WPD_OBJECT_SIZE` read is executed for directories as well — a folder whose
backend reports size 7 is classified DIRECTORY yet carries size 7, not
-1. -/
theorem C9_counterexample :
    (win_get_properties 5 "Dev\\S" ⟨some "d", some "d", WPD_GUID_FOLDER, 7, none⟩).content_type
      = WPD_CONTENT_TYPE_DIRECTORY ∧
    (win_get_properties 5 "Dev\\S" ⟨some "d", some "d", WPD_GUID_FOLDER, 7, none⟩).size = 7 ∧
    (win_get_properties 5 "Dev\\S" ⟨some "d", some "d", WPD_GUID_FOLDER, 7, none⟩).size ≠ -1 := by
  refine ⟨rfl, rfl, ?_⟩
  decide

/-- C9 amended: on the Linux backend every node constructed with a non-File
type keeps `size = -1`; on the Windows backend only Storage nodes keep
`-1` — Directory nodes, like File nodes, receive the backend-reported
`WPD_OBJECT_SIZE`. -/
theorem C9_nonfile_size (devicename : String) (gvfs : Bool) (fsSize : Option Int)
    (fsTimeOk : Bool) (dirpath : String) (sid eid : Nat) (typ : Int) (size : Int)
    (oid : Nat) (pp : String) (p : WinProps)
    (htyp : typ ≠ WPD_CONTENT_TYPE_FILE) :
    (linux_pdc_init devicename gvfs fsSize fsTimeOk dirpath sid eid typ size).size = -1 ∧
    ((win_get_properties oid pp p).content_type = WPD_CONTENT_TYPE_STORAGE →
      (win_get_properties oid pp p).size = -1) ∧
    ((win_get_properties oid pp p).content_type = WPD_CONTENT_TYPE_DIRECTORY ∨
        (win_get_properties oid pp p).content_type = WPD_CONTENT_TYPE_FILE →
      (win_get_properties oid pp p).size = p.objSize) := by
  refine ⟨?_, ?_, ?_⟩
  · have h2 : (typ == WPD_CONTENT_TYPE_FILE) = false := by
      simp only [beq_eq_false_iff_ne, ne_eq]
      exact htyp
    by_cases h3 : typ = WPD_CONTENT_TYPE_DEVICE
    · subst h3
      rfl
    · have h3' : (typ == WPD_CONTENT_TYPE_DEVICE) = false := by
        simp only [beq_eq_false_iff_ne, ne_eq]
        exact h3
      simp only [linux_pdc_init, h2, h3', Bool.false_eq_true, if_false]
  · intro hst
    by_cases hguid : (p.contentId == WPD_GUID_STORAGE || p.contentId == WPD_GUID_FUNCTIONAL) = true
    · simp only [win_get_properties, hguid, if_true]
    · exfalso
      simp only [win_get_properties, hguid, Bool.false_eq_true, if_false] at hst
      by_cases hf : (p.contentId == WPD_GUID_FOLDER) = true
      · simp [hf, WPD_CONTENT_TYPE_DIRECTORY, WPD_CONTENT_TYPE_STORAGE] at hst
      · simp [hf, WPD_CONTENT_TYPE_FILE, WPD_CONTENT_TYPE_STORAGE] at hst
  · intro hdf
    by_cases hguid : (p.contentId == WPD_GUID_STORAGE || p.contentId == WPD_GUID_FUNCTIONAL) = true
    · exfalso
      simp only [win_get_properties, hguid, if_true] at hdf
      rcases hdf with h | h
      · simp [WPD_CONTENT_TYPE_DIRECTORY, WPD_CONTENT_TYPE_STORAGE] at h
      · simp [WPD_CONTENT_TYPE_FILE, WPD_CONTENT_TYPE_STORAGE] at h
    · simp only [win_get_properties, hguid, Bool.false_eq_true, if_false]

theorem C9_witness :
    (linux_pdc_init "D" true none false "D/S" 0 0 WPD_CONTENT_TYPE_STORAGE 9).size = -1 ∧
    ((win_get_properties 5 "Dev" ⟨some "S", some "S", WPD_GUID_STORAGE, 9, none⟩).content_type
        = WPD_CONTENT_TYPE_STORAGE →
      (win_get_properties 5 "Dev" ⟨some "S", some "S", WPD_GUID_STORAGE, 9, none⟩).size = -1) ∧
    ((win_get_properties 5 "Dev" ⟨some "S", some "S", WPD_GUID_STORAGE, 9, none⟩).content_type
          = WPD_CONTENT_TYPE_DIRECTORY ∨
        (win_get_properties 5 "Dev" ⟨some "S", some "S", WPD_GUID_STORAGE, 9, none⟩).content_type
          = WPD_CONTENT_TYPE_FILE →
      (win_get_properties 5 "Dev" ⟨some "S", some "S", WPD_GUID_STORAGE, 9, none⟩).size = 9) :=
  C9_nonfile_size "D" true none false "D/S" 0 0 WPD_CONTENT_TYPE_STORAGE 9 5 "Dev"
    ⟨some "S", some "S", WPD_GUID_STORAGE, 9, none⟩ (by decide)
/-! ## Claim C8: create_content on a name collision -/

def c8st : MtpDev :=
  ⟨"D", [("S", 1)], [⟨10, LIBMTP_FILES_AND_FOLDERS_ROOT, 1, "A", true, 0⟩], 11⟩

def c8stor : LinuxPDC :=
  ⟨"D/S", "S", 1, LIBMTP_FILES_AND_FOLDERS_ROOT, WPD_CONTENT_TYPE_STORAGE, -1⟩

/-- C8 counterexample: on the libmtp backend a same-named child exists
under the storage root, yet `create_content` has no existence check and no
AlreadyExists failure at all — it issues the folder-creation call and
succeeds silently with a duplicate-named sibling. -/
theorem C8_counterexample :
    (linux_mtp_get_child c8st c8stor "A").isSome = true ∧
    linux_mtp_create_content c8st c8stor "A"
      = (⟨"D", [("S", 1)],
          [⟨10, LIBMTP_FILES_AND_FOLDERS_ROOT, 1, "A", true, 0⟩,
           ⟨11, LIBMTP_FILES_AND_FOLDERS_ROOT, 1, "A", true, 0⟩], 12⟩,
         ⟨"D/S/A", "A", 1, 11, WPD_CONTENT_TYPE_DIRECTORY, -1⟩) := by
  constructor
  · rfl
  · rfl

/-- C8 amended: only the gvfs backend pre-checks existence and raises the
AlreadyExists IOError; the libmtp backend creates unconditionally (adding a
same-named sibling); the Windows backend creates unconditionally and then
re-resolves by first name match, so when a same-named child already existed
the call silently returns that pre-existing child. -/
theorem C8_create_content_collision (fs : FsNode) (d : GDev) (cont : LinuxPDC)
    (dirname : String) (mst : MtpDev) (mcont : LinuxPDC) (mdir : String)
    (wst : WinDev) (wcont : WNode) (wdir : String) (c : WNode)
    (hex : osExists fs ((gdevParts d.raw).1 ++ pjoin '/' cont.full_filename dirname) = true)
    (hwc : win_get_child wst wcont wdir = some c) :
    linux_gvfs_create_content fs d cont dirname = .error .alreadyExists ∧
    (linux_mtp_create_content mst mcont mdir).1.objects
      = mst.objects ++ [⟨mst.next_id, mcont.entry_id, mcont.storage_id, mdir, true, 0⟩] ∧
    win_create_content wst wcont wdir
      = .ok ({ wst with
          objects := wst.objects
            ++ [⟨wst.next_id, wcont.object_id, wdir, WPD_GUID_FOLDER, 0, none⟩],
          next_id := wst.next_id + 1 }, c) := by
  refine ⟨?_, ?_, ?_⟩
  · simp only [linux_gvfs_create_content, hex, if_true]
  · simp [linux_mtp_create_content, mtp_create_folder]
  · have hkey : win_get_child
        ({ wst with
            objects := wst.objects
              ++ [⟨wst.next_id, wcont.object_id, wdir, WPD_GUID_FOLDER, 0, none⟩],
            next_id := wst.next_id + 1 } : WinDev) wcont wdir = some c := by
      simp only [win_get_child, win_get_children, win_enum_objects] at hwc ⊢
      rw [List.filter_append, List.map_append, List.find?_append, hwc]
      rfl
    simp only [win_create_content, hkey]

def c8fs : FsNode :=
  .dir [("mtp:host=D", .dir [("S", .dir [("A", .dir [])])])]

def c8gd : GDev := ⟨"mtp:host=D"⟩

def c8gstor : LinuxPDC := ⟨"D/S", "S", 0, 0, WPD_CONTENT_TYPE_STORAGE, -1⟩

def c8wst : WinDev :=
  ⟨"W", [⟨1, 0, "S", WPD_GUID_STORAGE, 0, none⟩, ⟨2, 1, "A", WPD_GUID_FOLDER, 0, none⟩], 3⟩

def c8wstor : WNode := ⟨1, "S", WPD_CONTENT_TYPE_STORAGE, "W\\S", -1, ""⟩

def c8wnodeA : WNode := ⟨2, "A", WPD_CONTENT_TYPE_DIRECTORY, "W\\S\\A", 0, ""⟩

theorem C8_witness :
    linux_gvfs_create_content c8fs c8gd c8gstor "A" = .error .alreadyExists ∧
    (linux_mtp_create_content c8st c8stor "A").1.objects
      = c8st.objects
        ++ [⟨c8st.next_id, c8stor.entry_id, c8stor.storage_id, "A", true, 0⟩] ∧
    win_create_content c8wst c8wstor "A"
      = .ok ({ c8wst with
          objects := c8wst.objects
            ++ [⟨c8wst.next_id, c8wstor.object_id, "A", WPD_GUID_FOLDER, 0, none⟩],
          next_id := c8wst.next_id + 1 }, c8wnodeA) :=
  C8_create_content_collision c8fs c8gd c8gstor "A" c8st c8stor "A" c8wst c8wstor "A"
    c8wnodeA (by rfl) (by rfl)
/-! ## Claim C7: absent path segments during resolution -/

def c7st : MtpDev := ⟨"D", [("S", 1)], [], 2⟩

/-- C7 counterexample: on the libmtp backend a path whose storage segment
names no existing storage makes `get_content_from_device_path` raise
IOError ("The storage ... could not be found") instead of returning None —
absence at the storage segment position is a thrown failure there. -/
theorem C7_counterexample :
    linux_gcdp_mtp c7st "D/T/x" = .error .ioError := by
  rfl

/-- C7 amended: absence of a path segment yields an absent result on the
gvfs backend, on the Windows backend (both at the storage segment and at
any deeper segment, where the `get_child` chain returns None), and on the
libmtp backend at any segment after the storage — but a missing storage
segment on the libmtp backend raises IOError instead of returning None. -/
theorem C7_resolution_absent (fs : FsNode) (d : GDev) (p : String)
    (mst : MtpDev) (mp : String) (m0 m1 : String) (mrest : List String)
    (mcont : LinuxPDC) (mseg : String) (msegs : List String)
    (wst : WinDev) (wp : String) (w0 w1 : String) (wrest : List String)
    (wcont : WNode) (wseg : String) (wsegs : List String)
    (hgne : pyReplace '\\' '/' p ≠ (gdevParts d.raw).2)
    (hgex : osExists fs ((gdevParts d.raw).1 ++ pyReplace '\\' '/' p) = false)
    (hmne : pyReplace '\\' '/' mp ≠ mst.devicename)
    (hmsplit : pySplit '/' (pyReplace '\\' '/' mp) = m0 :: m1 :: mrest)
    (hmchild : linux_mtp_get_child mst mcont mseg = none)
    (hwsplit : pySplit '\\' (pyReplace '/' '\\' (pyReplace '\\' '\\' wp)) = w0 :: w1 :: wrest)
    (hw0 : w0 = wst.devicename)
    (hwchild : win_get_child wst wcont wseg = none) :
    linux_gcdp_gvfs fs d p = .ok none ∧
    ((linux_mtp_get_content mst).find?
        (fun stor => stor.full_filename == pjoin '/' m0 m1) = none →
      linux_gcdp_mtp mst mp = .error .ioError) ∧
    (∀ stor, (linux_mtp_get_content mst).find?
        (fun stor => stor.full_filename == pjoin '/' m0 m1) = some stor →
      linux_gcdp_mtp mst mp = .ok (linux_mtp_resolve mst stor mrest)) ∧
    linux_mtp_resolve mst mcont (mseg :: msegs) = none ∧
    ((win_get_content wst).find? (fun e => e.name == w1) = none →
      win_gcdp wst wp = .ok none) ∧
    (∀ stor, (win_get_content wst).find? (fun e => e.name == w1) = some stor →
      win_gcdp wst wp = .ok (win_resolve wst stor wrest)) ∧
    win_resolve wst wcont (wseg :: wsegs) = none := by
  have hgne' : (pyReplace '\\' '/' p == (gdevParts d.raw).2) = false := by
    simp only [beq_eq_false_iff_ne, ne_eq]
    exact hgne
  have hmne' : (pyReplace '\\' '/' mp == mst.devicename) = false := by
    simp only [beq_eq_false_iff_ne, ne_eq]
    exact hmne
  have hw0' : (w0 == wst.devicename) = true := by
    simp only [beq_iff_eq]
    exact hw0
  refine ⟨?_, ?_, ?_, ?_, ?_, ?_, ?_⟩
  · simp only [linux_gcdp_gvfs, hgne', Bool.false_eq_true, if_false, hgex]
  · intro hfind
    simp only [linux_gcdp_mtp, hmne', Bool.false_eq_true, if_false, hmsplit, hfind]
  · intro stor hfind
    simp only [linux_gcdp_mtp, hmne', Bool.false_eq_true, if_false, hmsplit, hfind]
  · simp only [linux_mtp_resolve, hmchild]
  · intro hfind
    simp only [win_gcdp, hwsplit, hw0', if_true, hfind]
  · intro stor hfind
    simp only [win_gcdp, hwsplit, hw0', if_true, hfind]
  · simp only [win_resolve, hwchild]

def c7fs : FsNode := .dir [("mtp:host=D", .dir [("S", .dir [])])]

def c7gd : GDev := ⟨"mtp:host=D"⟩

def c7mcont : LinuxPDC := ⟨"D/S", "S", 1, LIBMTP_FILES_AND_FOLDERS_ROOT,
  WPD_CONTENT_TYPE_STORAGE, -1⟩

def c7wst : WinDev := ⟨"W", [⟨1, 0, "S", WPD_GUID_STORAGE, 0, none⟩], 2⟩

def c7wstor : WNode := ⟨1, "S", WPD_CONTENT_TYPE_STORAGE, "W\\S", -1, ""⟩

theorem C7_witness :
    linux_gcdp_gvfs c7fs c7gd "D/S/missing" = .ok none ∧
    ((linux_mtp_get_content c7st).find?
        (fun stor => stor.full_filename == pjoin '/' "D" "T") = none →
      linux_gcdp_mtp c7st "D/T/x" = .error .ioError) ∧
    (∀ stor, (linux_mtp_get_content c7st).find?
        (fun stor => stor.full_filename == pjoin '/' "D" "T") = some stor →
      linux_gcdp_mtp c7st "D/T/x" = .ok (linux_mtp_resolve c7st stor ["x"])) ∧
    linux_mtp_resolve c7st c7mcont ("missing" :: []) = none ∧
    ((win_get_content c7wst).find? (fun e => e.name == "T") = none →
      win_gcdp c7wst "W/T/x" = .ok none) ∧
    (∀ stor, (win_get_content c7wst).find? (fun e => e.name == "T") = some stor →
      win_gcdp c7wst "W/T/x" = .ok (win_resolve c7wst stor ["x"])) ∧
    win_resolve c7wst c7wstor ("missing" :: []) = none :=
  C7_resolution_absent c7fs c7gd "D/S/missing" c7st "D/T/x" "D" "T" ["x"] c7mcont "missing" []
    c7wst "W/T/x" "W" "T" ["x"] c7wstor "missing" []
    (by decide) (by rfl) (by decide) (by rfl) (by rfl) (by rfl) (by rfl) (by rfl)

/-! ## Claim C10: get_path on the node's own separator-free name -/

/-- C10: on both implementations, calling `get_path` with a path that
equals the node's own name and contains no separator (and differs from the
devicename) runs into `path.split(os.sep, 1)[1]` on a one-element split
result: an uncaught IndexError, instead of the node itself or an absent
result.  Stated for both Linux branches and for the Windows
implementation. -/
theorem C10_get_path_self_name_index_error
    (fs : FsNode) (d : GDev) (selfc : LinuxPDC) (mst : MtpDev) (mselfc : LinuxPDC)
    (wst : WinDev) (wselfc : WNode) (name : String)
    (hnorm : pyReplace '\\' '/' name = name)
    (hwnorm : pyReplace '/' '\\' name = name)
    (hsplit : pySplit1 '/' name = [name])
    (hwsplit : pySplit1 '\\' name = [name])
    (hld : name ≠ (gdevParts d.raw).2)
    (hmd : name ≠ mst.devicename)
    (hwd : name ≠ wst.devicename)
    (hln : selfc.name = name) (hmn : mselfc.name = name) (hwn : wselfc.name = name) :
    linux_gvfs_get_path fs d selfc name = .error .indexError ∧
    linux_mtp_get_path mst mselfc name = .error .indexError ∧
    win_get_path wst wselfc name = .error .indexError := by
  have hld' : (name == (gdevParts d.raw).2) = false := by
    simp only [beq_eq_false_iff_ne, ne_eq]
    exact hld
  have hmd' : (name == mst.devicename) = false := by
    simp only [beq_eq_false_iff_ne, ne_eq]
    exact hmd
  have hwd' : (name == wst.devicename) = false := by
    simp only [beq_eq_false_iff_ne, ne_eq]
    exact hwd
  have hln' : (name == selfc.name) = true := by
    simp only [beq_iff_eq]
    exact hln.symm
  have hmn' : (name == mselfc.name) = true := by
    simp only [beq_iff_eq]
    exact hmn.symm
  have hwn' : (name == wselfc.name) = true := by
    simp only [beq_iff_eq]
    exact hwn.symm
  refine ⟨?_, ?_, ?_⟩
  · simp only [linux_gvfs_get_path, hnorm, hsplit, List.headD_cons, hld', Bool.false_eq_true,
      if_false, hln', if_true]
  · simp only [linux_mtp_get_path, hnorm, hsplit, List.headD_cons, hmd', Bool.false_eq_true,
      if_false, hmn', if_true]
  · simp only [win_get_path, hwnorm, hwsplit, List.headD_cons, hwd', Bool.false_eq_true,
      if_false, hwn', if_true]

def c10selfc : LinuxPDC := ⟨"D/S/DCIM", "DCIM", 1, 7, WPD_CONTENT_TYPE_DIRECTORY, -1⟩

def c10wselfc : WNode := ⟨7, "DCIM", WPD_CONTENT_TYPE_DIRECTORY, "W\\S\\DCIM", 0, ""⟩

theorem C10_witness :
    linux_gvfs_get_path c7fs c7gd c10selfc "DCIM" = .error .indexError ∧
    linux_mtp_get_path c7st c10selfc "DCIM" = .error .indexError ∧
    win_get_path c7wst c10wselfc "DCIM" = .error .indexError :=
  C10_get_path_self_name_index_error c7fs c7gd c10selfc c7st c10selfc c7wst c10wselfc "DCIM"
    (by rfl) (by rfl) (by rfl) (by rfl) (by decide) (by decide) (by decide)
    (by rfl) (by rfl) (by rfl)
/-! ## Claim C6: makedirs idempotence -/

theorem pyReplace_idem (a b : Char) (s : String) :
    pyReplace a b (pyReplace a b s) = pyReplace a b s := by
  have key : ∀ l : List Char,
      (l.map (fun c => if c = a then b else c)).map (fun c => if c = a then b else c)
        = l.map (fun c => if c = a then b else c) := by
    intro l
    rw [List.map_map]
    apply List.map_congr_left
    intro c _
    by_cases hc : c = a
    · simp [hc]
    · simp [hc]
  unfold pyReplace
  exact congrArg String.mk (key s.data)

theorem linux_gcdp_gvfs_exists {fs : FsNode} {d : GDev} {p : String} {n : LinuxPDC}
    (h : linux_gcdp_gvfs fs d p = .ok (some n)) :
    osExists fs ((gdevParts d.raw).1 ++ pyReplace '\\' '/' p) = true := by
  by_contra hex
  rw [Bool.not_eq_true] at hex
  by_cases hdev : (pyReplace '\\' '/' p == (gdevParts d.raw).2) = true
  · simp [linux_gcdp_gvfs, hdev] at h
  · simp [linux_gcdp_gvfs, hdev, hex] at h

/-- Calling `makedirs` on gvfs a second time is the identity: the first
successful call leaves the path existing, so the second skips creation and
re-resolves to the same node over the same filesystem. -/
theorem linux_gvfs_makedirs_idem {fs : FsNode} {d : GDev} {p : String} {fs1 : FsNode}
    {n1 : LinuxPDC} (h : linux_gvfs_makedirs fs d p = .ok (fs1, n1)) :
    linux_gvfs_makedirs fs1 d p = .ok (fs1, n1) := by
  by_cases he : osExists fs ((gdevParts d.raw).1 ++ pyReplace '\\' '/' p) = true
  · have hfs : fs1 = fs := by
      simp only [linux_gvfs_makedirs, he, if_true] at h
      rcases hg : linux_gcdp_gvfs fs d (pyReplace '\\' '/' p) with e | o
      · rw [hg] at h
        cases h
      · rw [hg] at h
        cases o with
        | none => cases h
        | some cont =>
          injection h with h'
          exact (congrArg Prod.fst h').symm
    subst hfs
    exact h
  · rw [Bool.not_eq_true] at he
    rcases hmk : fsMakedirs (pySplit '/' ((gdevParts d.raw).1 ++ pyReplace '\\' '/' p)) fs
        with _ | fs2
    · simp [linux_gvfs_makedirs, he, hmk] at h
    · simp only [linux_gvfs_makedirs, he, Bool.false_eq_true, if_false, hmk] at h
      rcases hg : linux_gcdp_gvfs fs2 d (pyReplace '\\' '/' p) with e | o
      · rw [hg] at h
        cases h
      · rw [hg] at h
        cases o with
        | none => cases h
        | some cont =>
          injection h with h'
          have hfs : fs2 = fs1 := congrArg Prod.fst h'
          have hn : cont = n1 := congrArg Prod.snd h'
          subst hfs
          subst hn
          have hex2 := linux_gcdp_gvfs_exists hg
          rw [pyReplace_idem] at hex2
          simp only [linux_gvfs_makedirs, hex2, if_true, hg]

/-- `makedirs` on gvfs can only raise the generic IOError, never the
AlreadyExists error (it never calls `create_content`). -/
theorem linux_gvfs_makedirs_no_already (fs : FsNode) (d : GDev) (p : String) :
    linux_gvfs_makedirs fs d p ≠ .error .alreadyExists := by
  intro h
  by_cases he : osExists fs ((gdevParts d.raw).1 ++ pyReplace '\\' '/' p) = true
  · simp only [linux_gvfs_makedirs, he, if_true] at h
    rcases hg : linux_gcdp_gvfs fs d (pyReplace '\\' '/' p) with e | o
    · simp [hg] at h
    · rcases o with _ | cont
      · simp [hg] at h
      · simp [hg] at h
  · rw [Bool.not_eq_true] at he
    rcases hmk : fsMakedirs (pySplit '/' ((gdevParts d.raw).1 ++ pyReplace '\\' '/' p)) fs
        with _ | fs2
    · simp [linux_gvfs_makedirs, he, hmk] at h
    · simp only [linux_gvfs_makedirs, he, Bool.false_eq_true, if_false, hmk] at h
      rcases hg : linux_gcdp_gvfs fs2 d (pyReplace '\\' '/' p) with e | o
      · simp [hg] at h
      · rcases o with _ | cont
        · simp [hg] at h
        · simp [hg] at h

theorem mtp_get_child_extend {st st' : MtpDev} (new : List MtpObj)
    (hnew : st'.objects = st.objects ++ new) (hdev : st'.devicename = st.devicename)
    {cont : LinuxPDC} {seg : String} {c : LinuxPDC}
    (h : linux_mtp_get_child st cont seg = some c) :
    linux_mtp_get_child st' cont seg = some c := by
  unfold linux_mtp_get_child mtp_get_files_and_folder at h ⊢
  rw [hnew, List.filter_append, List.find?_append, hdev]
  rcases hf : (st.objects.filter
      (fun o => o.storage_id == cont.storage_id && o.parent_id == cont.entry_id)).find?
      (fun o => o.filename == seg) with _ | o
  · rw [hf] at h
    cases h
  · rw [hf] at h
    rw [hf]
    simpa [Option.or] using h

theorem mtp_get_child_created {st : MtpDev} {cont : LinuxPDC} {seg : String}
    (hnone : linux_mtp_get_child st cont seg = none)
    (st' : MtpDev) (i0 : Nat) (later : List MtpObj)
    (hnew : st'.objects = st.objects
      ++ (⟨i0, cont.entry_id, cont.storage_id, seg, true, 0⟩ : MtpObj) :: later)
    (hdev : st'.devicename = st.devicename) :
    linux_mtp_get_child st' cont seg
      = some (linux_pdc_init st.devicename false none false
          (pjoin '/' cont.full_filename seg) cont.storage_id i0 WPD_CONTENT_TYPE_DIRECTORY 0) := by
  unfold linux_mtp_get_child mtp_get_files_and_folder at hnone ⊢
  rw [hnew, List.filter_append, List.find?_append, hdev]
  rcases hf : (st.objects.filter
      (fun o => o.storage_id == cont.storage_id && o.parent_id == cont.entry_id)).find?
      (fun o => o.filename == seg) with _ | o
  · rw [hf]
    simp only [Option.or, List.filter_cons, List.find?_cons, beq_self_eq_true,
      Bool.and_self, if_true]
  · rw [hf] at hnone
    cases hnone

/-- Core idempotence of the libmtp segment loop: rerunning the loop from
the same starting node over the final state performs no creation and
reaches the same leaf, leaving the state untouched. -/
theorem linux_mtp_mdloop_idem : ∀ (segs : List String) (st : MtpDev) (cont : LinuxPDC),
    ∃ st1 n1, linux_mtp_mdloop st cont segs = (st1, n1) ∧
      linux_mtp_mdloop st1 cont segs = (st1, n1) ∧
      (∃ new, st1.objects = st.objects ++ new) ∧
      st1.storages = st.storages ∧ st1.devicename = st.devicename := by
  intro segs
  induction segs with
  | nil =>
    intro st cont
    exact ⟨st, cont, rfl, rfl, ⟨[], by simp⟩, rfl, rfl⟩
  | cons seg rest ih =>
    intro st cont
    rcases hgc : linux_mtp_get_child st cont seg with _ | c
    · rcases ih (MtpDev.mk st.devicename st.storages
          (st.objects ++ [⟨st.next_id, cont.entry_id, cont.storage_id, seg, true, 0⟩])
          (st.next_id + 1))
        (linux_pdc_init st.devicename false none false
          (pjoin '/' cont.full_filename seg) cont.storage_id st.next_id
          WPD_CONTENT_TYPE_DIRECTORY 0) with ⟨st1, n1, h1, h2, ⟨new2, hext⟩, hs, hd⟩
      refine ⟨st1, n1, ?_, ?_, ?_, by simpa using hs, by simpa using hd⟩
      · rw [linux_mtp_mdloop, hgc]
        exact h1
      · rw [linux_mtp_mdloop]
        have hcreated := mtp_get_child_created hgc st1 st.next_id new2
          (by simpa using hext) (by simpa using hd)
        rw [hcreated]
        exact h2
      · refine ⟨(⟨st.next_id, cont.entry_id, cont.storage_id, seg, true, 0⟩ : MtpObj)
          :: new2, ?_⟩
        simp only at hext
        rw [hext, List.append_assoc]
        rfl
    · rcases ih st c with ⟨st1, n1, h1, h2, ⟨new2, hext⟩, hs, hd⟩
      refine ⟨st1, n1, ?_, ?_, ⟨new2, hext⟩, hs, hd⟩
      · rw [linux_mtp_mdloop, hgc]
        exact h1
      · rw [linux_mtp_mdloop]
        rw [mtp_get_child_extend new2 hext hd hgc]
        exact h2

theorem linux_mtp_get_content_congr {st st' : MtpDev} (hs : st'.storages = st.storages)
    (hd : st'.devicename = st.devicename) :
    linux_mtp_get_content st' = linux_mtp_get_content st := by
  unfold linux_mtp_get_content
  rw [hs, hd]

/-- `makedirs` on libmtp is idempotent whenever the device/storage prefix
resolves: the first call succeeds, and the second call over the resulting
state performs no creation and returns the same state and leaf node. -/
theorem linux_mtp_makedirs_idem (st : MtpDev) (p : String) (d0 s0 : String)
    (segs : List String) (stor0 : LinuxPDC)
    (hsplit : pySplit '/' (pyReplace '\\' '/' p) = d0 :: s0 :: segs)
    (hsegs : segs ≠ [])
    (hstor : (linux_mtp_get_content st).find?
      (fun stor => stor.full_filename == pjoin '/' d0 s0) = some stor0) :
    ∃ st1 n1, linux_mtp_makedirs st p = .ok (st1, n1) ∧
      linux_mtp_makedirs st1 p = .ok (st1, n1) := by
  have hie : segs.isEmpty = false := by
    cases segs with
    | nil => exact absurd rfl hsegs
    | cons a b => rfl
  rcases linux_mtp_mdloop_idem segs st stor0 with ⟨st1, n1, h1, h2, hext, hs, hd⟩
  refine ⟨st1, n1, ?_, ?_⟩
  · simp only [linux_mtp_makedirs, hsplit, hie, Bool.false_eq_true, if_false, hstor, h1]
  · have hstor1 : (linux_mtp_get_content st1).find?
        (fun stor => stor.full_filename == pjoin '/' d0 s0) = some stor0 := by
      rw [linux_mtp_get_content_congr hs hd]
      exact hstor
    simp only [linux_mtp_makedirs, hsplit, hie, Bool.false_eq_true, if_false, hstor1, h2]


theorem pyReplace_self (a : Char) (s : String) : pyReplace a a s = s := by
  unfold pyReplace
  have h2 : s.data.map (fun c => if c = a then a else c) = s.data.map id :=
    List.map_congr_left (fun c _ => by by_cases hc : c = a <;> simp [hc])
  rw [h2, List.map_id]

theorem pyReplace_append (a b : Char) (s t : String) :
    pyReplace a b (s ++ t) = pyReplace a b s ++ pyReplace a b t := by
  unfold pyReplace
  rw [String.data_append, List.map_append]
  rfl

theorem splitChar_ne_nil (sep : Char) (l : List Char) : splitChar sep l ≠ [] := by
  induction l with
  | nil => simp [splitChar]
  | cons c cs ih =>
    by_cases hc : c = sep
    · simp [splitChar, hc]
    · simp only [splitChar, if_neg hc]
      rcases hsc : splitChar sep cs with _ | ⟨p, ps⟩ <;> simp [hsc]

theorem splitChar_append (sep : Char) (xs ys : List Char) :
    splitChar sep (xs ++ sep :: ys) = splitChar sep xs ++ splitChar sep ys := by
  induction xs with
  | nil => simp [splitChar]
  | cons c cs ih =>
    by_cases hc : c = sep
    · simp [List.cons_append, splitChar, hc, ih]
    · simp only [List.cons_append, splitChar, if_neg hc]
      rcases hsc : splitChar sep cs with _ | ⟨p, ps⟩
      · exact absurd hsc (splitChar_ne_nil sep cs)
      · simp only [List.append_eq]
        rw [ih, hsc]
        rfl

theorem splitChar_mem_chars (sep : Char) :
    ∀ (l part : List Char), part ∈ splitChar sep l → ∀ c ∈ part, c ∈ l ∧ c ≠ sep := by
  intro l
  induction l with
  | nil =>
    intro part hp c hc
    simp [splitChar] at hp
    subst hp
    simp at hc
  | cons d ds ih =>
    intro part hp c hc
    by_cases hd : d = sep
    · rw [splitChar, if_pos hd] at hp
      rcases List.mem_cons.mp hp with h1 | h2
      · subst h1
        simp at hc
      · rcases ih part h2 c hc with ⟨hin, hne⟩
        exact ⟨List.mem_cons_of_mem _ hin, hne⟩
    · rw [splitChar, if_neg hd] at hp
      rcases hsc : splitChar sep ds with _ | ⟨p, ps⟩
      · exact absurd hsc (splitChar_ne_nil sep ds)
      · simp only [hsc] at hp
        rcases List.mem_cons.mp hp with h1 | h2
        · subst h1
          rcases List.mem_cons.mp hc with hc1 | hc2
          · subst hc1
            exact ⟨List.mem_cons_self _ _, hd⟩
          · rcases ih p (by rw [hsc]; exact List.mem_cons_self _ _) c hc2 with ⟨hin, hne⟩
            exact ⟨List.mem_cons_of_mem _ hin, hne⟩
        · rcases ih part (by rw [hsc]; exact List.mem_cons_of_mem _ h2) c hc with ⟨hin, hne⟩
          exact ⟨List.mem_cons_of_mem _ hin, hne⟩

theorem splitChar_no_sep (sep : Char) :
    ∀ (l : List Char), (∀ c ∈ l, c ≠ sep) → splitChar sep l = [l] := by
  intro l
  induction l with
  | nil => intro _; rfl
  | cons c cs ih =>
    intro h
    rw [splitChar, if_neg (h c (List.mem_cons_self _ _)),
      ih (fun x hx => h x (List.mem_cons_of_mem _ hx))]

theorem pyReplace_no_src {a b : Char} (hab : b ≠ a) (s : String) :
    ∀ c ∈ (pyReplace a b s).data, c ≠ a := by
  intro c hc
  have hc2 : c ∈ List.map (fun c => if c = a then b else c) s.data := hc
  rcases List.mem_map.mp hc2 with ⟨x, _, rfl⟩
  by_cases hx : x = a
  · simpa [hx] using hab
  · simpa [hx] using hx

theorem pyReplace_id_of_no (a b : Char) {s : String} (h : ∀ c ∈ s.data, c ≠ a) :
    pyReplace a b s = s := by
  unfold pyReplace
  have h2 : s.data.map (fun c => if c = a then b else c) = s.data.map id :=
    List.map_congr_left (fun c hc => by simp [h c hc])
  rw [h2, List.map_id]

theorem pySplit_parts_clean {s sg : String}
    (hmem : sg ∈ pySplit '\\' (pyReplace '/' '\\' s)) :
    pyReplace '/' '\\' sg = sg ∧ splitChar '\\' sg.data = [sg.data] := by
  unfold pySplit at hmem
  rcases List.mem_map.mp hmem with ⟨part, hpart, rfl⟩
  have hchars := splitChar_mem_chars '\\' (pyReplace '/' '\\' s).data part hpart
  constructor
  · apply pyReplace_id_of_no
    intro c hc
    exact pyReplace_no_src (by decide) s c (hchars c hc).1
  · apply splitChar_no_sep
    intro c hc
    exact (hchars c hc).2

theorem pySplit_single_of_clean {sg : String} (h : splitChar '\\' sg.data = [sg.data]) :
    pySplit '\\' sg = [sg] := by
  unfold pySplit
  rw [h]
  rfl

theorem pjoin_nonempty (sep : Char) {a : String} (ha : a.data.isEmpty = false) (b : String) :
    pjoin sep a b = a ++ String.mk [sep] ++ b := by
  simp [pjoin, ha]

theorem pySplit_pjoin {a b : String} (ha : a.data.isEmpty = false)
    (hb : splitChar '\\' b.data = [b.data]) :
    pySplit '\\' (pjoin '\\' a b) = pySplit '\\' a ++ [b] := by
  rw [pjoin_nonempty '\\' ha b]
  unfold pySplit
  have hd : (a ++ String.mk ['\\'] ++ b).data = a.data ++ '\\' :: b.data := by
    simp [String.data_append]
  rw [hd, splitChar_append, hb, List.map_append]
  rfl

theorem pySplit_two_nonempty {sep : Char} {s x y : String} {l : List String}
    (h : pySplit sep s = x :: y :: l) : s.data.isEmpty = false := by
  rcases hd : s.data with _ | ⟨c, cs⟩
  · unfold pySplit at h
    rw [hd] at h
    simp [splitChar] at h
  · simp [hd]


theorem win_get_children_extend {st st' : WinDev} (new : List WObj)
    (hnew : st'.objects = st.objects ++ new) (n : WNode) :
    win_get_children st' n = win_get_children st n
      ++ (new.filter (fun o => o.parent_id == n.object_id)).map
          (fun o => win_get_properties o.object_id n.full_filename (wobjProps o)) := by
  unfold win_get_children win_enum_objects
  rw [hnew, List.filter_append, List.map_append]

theorem win_get_child_extend {st st' : WinDev} (new : List WObj)
    (hnew : st'.objects = st.objects ++ new) {n : WNode} {nm : String} {c : WNode}
    (h : win_get_child st n nm = some c) : win_get_child st' n nm = some c := by
  unfold win_get_child at h ⊢
  rw [win_get_children_extend new hnew, List.find?_append, h]
  rfl

theorem win_resolve_extend {st st' : WinDev} (new : List WObj)
    (hnew : st'.objects = st.objects ++ new) :
    ∀ {xs : List String} {n z : WNode}, win_resolve st n xs = some z →
      win_resolve st' n xs = some z := by
  intro xs
  induction xs with
  | nil =>
    intro n z h
    exact h
  | cons p ps ih =>
    intro n z h
    rw [win_resolve] at h ⊢
    rcases hgc : win_get_child st n p with _ | c
    · rw [hgc] at h
      cases h
    · rw [hgc] at h
      rw [win_get_child_extend new hnew hgc]
      exact ih h

theorem win_get_content_extend {st st' : WinDev} (new : List WObj)
    (hnew : st'.objects = st.objects ++ new) (hdev : st'.devicename = st.devicename)
    (hpar : ∀ o ∈ new, o.parent_id ≠ 0) :
    win_get_content st' = win_get_content st := by
  unfold win_get_content
  have hroot : win_root_pdc st' = win_root_pdc st := by
    unfold win_root_pdc
    rw [hdev]
  rw [hroot, win_get_children_extend new hnew]
  have hnil : new.filter (fun o => o.parent_id == (win_root_pdc st).object_id) = [] := by
    rw [List.filter_eq_nil_iff]
    intro o ho
    simp [win_root_pdc, hpar o ho]
  rw [hnil]
  simp

theorem win_get_properties_oid (i : Nat) (pp : String) (pr : WinProps) :
    (win_get_properties i pp pr).object_id = i := by
  by_cases hg : (pr.contentId == WPD_GUID_STORAGE || pr.contentId == WPD_GUID_FUNCTIONAL) = true
  · simp [win_get_properties, hg]
  · simp [win_get_properties, hg]

theorem win_get_child_oid {st : WinDev} (hids : ∀ o ∈ st.objects, o.object_id ≠ 0)
    {n : WNode} {nm : String} {c : WNode} (h : win_get_child st n nm = some c) :
    c.object_id ≠ 0 := by
  unfold win_get_child win_get_children win_enum_objects at h
  have hmem := List.mem_of_find?_eq_some h
  rcases List.mem_map.mp hmem with ⟨o, ho, rfl⟩
  rw [win_get_properties_oid]
  exact hids o (List.mem_of_mem_filter ho)

theorem win_resolve_oid {st : WinDev} (hids : ∀ o ∈ st.objects, o.object_id ≠ 0) :
    ∀ {xs : List String} {n z : WNode}, n.object_id ≠ 0 →
      win_resolve st n xs = some z → z.object_id ≠ 0 := by
  intro xs
  induction xs with
  | nil =>
    intro n z hn h
    injection h with h2
    rw [← h2]
    exact hn
  | cons p ps ih =>
    intro n z hn h
    rw [win_resolve] at h
    rcases hgc : win_get_child st n p with _ | c
    · rw [hgc] at h
      cases h
    · rw [hgc] at h
      exact ih (win_get_child_oid hids hgc) h

theorem win_get_content_oid {st : WinDev} (hids : ∀ o ∈ st.objects, o.object_id ≠ 0)
    {stor : WNode} (h : stor ∈ win_get_content st) : stor.object_id ≠ 0 := by
  unfold win_get_content win_get_children win_enum_objects at h
  rcases List.mem_map.mp h with ⟨o, ho, rfl⟩
  rw [win_get_properties_oid]
  exact hids o (List.mem_of_mem_filter ho)

theorem win_gcdp_eval {st : WinDev} {path_int p0 p1 : String} {pr : List String} {stor : WNode}
    (hnorm : pyReplace '/' '\\' path_int = path_int)
    (hsp : pySplit '\\' path_int = p0 :: p1 :: pr)
    (hd : (p0 == st.devicename) = true)
    (hf : (win_get_content st).find? (fun e => e.name == p1) = some stor) :
    win_gcdp st path_int = .ok (win_resolve st stor pr) := by
  simp only [win_gcdp, pyReplace_self, hnorm, hsp, hd, if_true, hf]

theorem win_gcdp_elim {st : WinDev} {path_int p0 p1 : String} {pr : List String}
    {content : WNode}
    (hnorm : pyReplace '/' '\\' path_int = path_int)
    (hsp : pySplit '\\' path_int = p0 :: p1 :: pr)
    (hgc : win_gcdp st path_int = .ok (some content)) :
    (p0 == st.devicename) = true ∧
      ∃ stor, (win_get_content st).find? (fun e => e.name == p1) = some stor ∧
        win_resolve st stor pr = some content := by
  simp only [win_gcdp, pyReplace_self, hnorm, hsp] at hgc
  by_cases hd : (p0 == st.devicename) = true
  · rw [if_pos hd] at hgc
    rcases hf : (win_get_content st).find? (fun e => e.name == p1) with _ | stor
    · rw [hf] at hgc
      injection hgc with h2
      cases h2
    · rw [hf] at hgc
      injection hgc with h2
      exact ⟨hd, stor, hf, h2⟩
  · rw [if_neg hd] at hgc
    injection hgc with h2
    cases h2

theorem win_gcdp_extend {st st' : WinDev} (new : List WObj)
    (hnew : st'.objects = st.objects ++ new) (hdev : st'.devicename = st.devicename)
    (hpar : ∀ o ∈ new, o.parent_id ≠ 0)
    {p : String} {z : WNode} (h : win_gcdp st p = .ok (some z)) :
    win_gcdp st' p = .ok (some z) := by
  simp only [win_gcdp] at h ⊢
  rcases hsp : pySplit '\\' (pyReplace '/' '\\' (pyReplace '\\' '\\' p)) with _ | ⟨p0, tl⟩
  · rw [hsp] at h
    cases h
  · rcases tl with _ | ⟨p1, rest⟩
    · simp only [hsp] at h
      cases h
    · simp only [hsp] at h ⊢
      rw [hdev]
      by_cases hd : (p0 == st.devicename) = true
      · rw [if_pos hd] at h ⊢
        rw [win_get_content_extend new hnew hdev hpar]
        rcases hf : (win_get_content st).find? (fun e => e.name == p1) with _ | stor
        · rw [hf] at h
          injection h with h2
          cases h2
        · rw [hf] at h
          injection h with h2
          simp only [hf]
          rw [win_resolve_extend new hnew h2]
      · rw [if_neg hd] at h
        injection h with h2
        cases h2

theorem win_gcdp_oid {st : WinDev} (hids : ∀ o ∈ st.objects, o.object_id ≠ 0)
    {p0 p1 : String} {pr : List String} {path_int : String} {z : WNode}
    (hnorm : pyReplace '/' '\\' path_int = path_int)
    (hsp : pySplit '\\' path_int = p0 :: p1 :: pr)
    (h : win_gcdp st path_int = .ok (some z)) : z.object_id ≠ 0 := by
  rcases win_gcdp_elim hnorm hsp h with ⟨hd, stor, hf, hres⟩
  exact win_resolve_oid hids
    (win_get_content_oid hids (List.mem_of_find?_eq_some hf)) hres

theorem win_resolve_append (st : WinDev) (xs : List String) (y : String) :
    ∀ n, win_resolve st n (xs ++ [y]) =
      match win_resolve st n xs with
      | none => none
      | some z => win_get_child st z y := by
  induction xs with
  | nil =>
    intro n
    rcases hg : win_get_child st n y with _ | c <;> simp [win_resolve, hg]
  | cons p ps ih =>
    intro n
    rw [List.cons_append, win_resolve]
    rcases hg : win_get_child st n p with _ | c
    · simp [win_resolve, hg]
    · simp only [win_resolve, hg]
      exact ih c


theorem win_get_child_after_create {st : WinDev} {content : WNode} {seg : String}
    (hgch : win_get_child st content seg = none) :
    win_get_child
        ⟨st.devicename,
          st.objects ++ [⟨st.next_id, content.object_id, seg, WPD_GUID_FOLDER, 0, none⟩],
          st.next_id + 1⟩ content seg
      = some (win_get_properties st.next_id content.full_filename
          (wobjProps ⟨st.next_id, content.object_id, seg, WPD_GUID_FOLDER, 0, none⟩)) := by
  unfold win_get_child at hgch ⊢
  rw [win_get_children_extend
      [⟨st.next_id, content.object_id, seg, WPD_GUID_FOLDER, 0, none⟩] rfl,
    List.find?_append, hgch]
  simp only [List.filter_cons, List.filter_nil, beq_self_eq_true, if_true,
    List.map_cons, List.map_nil, List.find?_cons, win_props_name]
  rfl

theorem win_create_content_eval {st : WinDev} {content : WNode} {seg : String}
    (hgch : win_get_child st content seg = none) :
    win_create_content st content seg
      = .ok (⟨st.devicename,
            st.objects ++ [⟨st.next_id, content.object_id, seg, WPD_GUID_FOLDER, 0, none⟩],
            st.next_id + 1⟩,
          win_get_properties st.next_id content.full_filename
            (wobjProps ⟨st.next_id, content.object_id, seg, WPD_GUID_FOLDER, 0, none⟩)) := by
  simp only [win_create_content]
  rw [win_get_child_after_create hgch]

/-- Core idempotence of the Windows `makedirs` segment loop: under the
resolution invariant (the running prefix resolves to the running node), the
loop succeeds, and rerunning it over the final state resolves every prefix
without creating anything, reaching the same leaf and leaving the state
untouched. -/
theorem win_md_loop_idem :
    ∀ (segs : List String) (st : WinDev) (content : WNode) (path_int : String)
      (p0 p1 : String) (pr : List String),
      (∀ o ∈ st.objects, o.object_id ≠ 0) →
      0 < st.next_id →
      pyReplace '/' '\\' path_int = path_int →
      pySplit '\\' path_int = p0 :: p1 :: pr →
      p0 = st.devicename →
      (∀ sg ∈ segs, pyReplace '/' '\\' sg = sg ∧ splitChar '\\' sg.data = [sg.data]) →
      win_gcdp st path_int = .ok (some content) →
    ∃ st1 n1 new,
      win_md_loop st content path_int segs = .ok (st1, n1) ∧
      win_md_loop st1 content path_int segs = .ok (st1, n1) ∧
      st1.objects = st.objects ++ new ∧
      (∀ o ∈ new, o.object_id ≠ 0 ∧ o.parent_id ≠ 0) ∧
      st1.devicename = st.devicename := by
  intro segs
  induction segs with
  | nil =>
    intro st content path_int p0 p1 pr hids hnid hnorm hsp hd hclean hgc
    exact ⟨st, content, [], rfl, rfl, by simp, by simp, rfl⟩
  | cons seg rest ih =>
    intro st content path_int p0 p1 pr hids hnid hnorm hsp hd hclean hgc
    by_cases hseg : (seg == "") = true
    · rcases ih st content path_int p0 p1 pr hids hnid hnorm hsp hd
        (fun sg hsg => hclean sg (List.mem_cons_of_mem _ hsg)) hgc with
        ⟨st1, n1, new, h1, h2, hobj, hvals, hdev⟩
      refine ⟨st1, n1, new, ?_, ?_, hobj, hvals, hdev⟩
      · rw [win_md_loop, if_pos hseg]
        exact h1
      · rw [win_md_loop, if_pos hseg]
        exact h2
    · have hcl := hclean seg (List.mem_cons_self _ _)
      have hpne : path_int.data.isEmpty = false := pySplit_two_nonempty hsp
      have hnorm2 : pyReplace '/' '\\' (pjoin '\\' path_int seg) = pjoin '\\' path_int seg := by
        rw [pjoin_nonempty '\\' hpne seg, pyReplace_append, pyReplace_append, hnorm, hcl.1]
        rfl
      have hsp2 : pySplit '\\' (pjoin '\\' path_int seg) = p0 :: p1 :: (pr ++ [seg]) := by
        rw [pySplit_pjoin hpne hcl.2, hsp]
        rfl
      obtain ⟨hd2, stor, hf, hres⟩ := win_gcdp_elim hnorm hsp hgc
      have hcoid : content.object_id ≠ 0 := win_gcdp_oid hids hnorm hsp hgc
      rcases hgch : win_get_child st content seg with _ | z
      · obtain ⟨st2, hst2⟩ : ∃ st2 : WinDev, st2 = ⟨st.devicename,
            st.objects ++ [⟨st.next_id, content.object_id, seg, WPD_GUID_FOLDER, 0, none⟩],
            st.next_id + 1⟩ := ⟨_, rfl⟩
        obtain ⟨nn, hnn⟩ : ∃ nn : WNode,
            nn = win_get_properties st.next_id content.full_filename
              (wobjProps ⟨st.next_id, content.object_id, seg, WPD_GUID_FOLDER, 0, none⟩) :=
          ⟨_, rfl⟩
        have hgc2none : win_gcdp st (pjoin '\\' path_int seg) = .ok none := by
          rw [win_gcdp_eval hnorm2 hsp2 hd2 hf, win_resolve_append, hres]
          simp [hgch]
        have hcre := win_create_content_eval hgch
        rw [← hst2, ← hnn] at hcre
        have hext2 : st2.objects = st.objects
            ++ [⟨st.next_id, content.object_id, seg, WPD_GUID_FOLDER, 0, none⟩] := by
          rw [hst2]
        have hdev2 : st2.devicename = st.devicename := by
          rw [hst2]
        have hpar2 : ∀ o ∈ [(⟨st.next_id, content.object_id, seg, WPD_GUID_FOLDER, 0,
            none⟩ : WObj)], o.parent_id ≠ 0 := by
          intro o ho
          rcases List.mem_singleton.mp ho with rfl
          simpa using hcoid
        have hf2 : (win_get_content st2).find? (fun e => e.name == p1) = some stor := by
          rw [win_get_content_extend _ hext2 hdev2 hpar2]
          exact hf
        have hrs : win_resolve st2 stor pr = some content :=
          win_resolve_extend _ hext2 hres
        have hres2 : win_resolve st2 stor (pr ++ [seg]) = some nn := by
          rw [win_resolve_append, hrs]
          show win_get_child st2 content seg = some nn
          rw [hst2, hnn]
          exact win_get_child_after_create hgch
        have hgc2 : win_gcdp st2 (pjoin '\\' path_int seg) = .ok (some nn) := by
          rw [win_gcdp_eval hnorm2 hsp2 (by rw [hdev2]; exact hd2) hf2, hres2]
        have hids2 : ∀ o ∈ st2.objects, o.object_id ≠ 0 := by
          rw [hext2]
          intro o ho
          rcases List.mem_append.mp ho with h | h
          · exact hids o h
          · rcases List.mem_singleton.mp h with rfl
            simpa using Nat.pos_iff_ne_zero.mp hnid
        have hnid2 : 0 < st2.next_id := by
          rw [hst2]
          exact Nat.succ_pos st.next_id
        have hd2' : p0 = st2.devicename := by
          rw [hdev2]
          exact hd
        rcases ih st2 nn (pjoin '\\' path_int seg) p0 p1 (pr ++ [seg]) hids2 hnid2 hnorm2 hsp2
          hd2' (fun sg hsg => hclean sg (List.mem_cons_of_mem _ hsg)) hgc2 with
          ⟨st1, n1, new2, ih1, ih2, ihobj, ihvals, ihdev⟩
        refine ⟨st1, n1,
          (⟨st.next_id, content.object_id, seg, WPD_GUID_FOLDER, 0, none⟩ : WObj) :: new2,
          ?_, ?_, ?_, ?_, ?_⟩
        · rw [win_md_loop, if_neg hseg]
          simp only [hgc2none, hcre]
          exact ih1
        · rw [win_md_loop, if_neg hseg]
          have hgc1' : win_gcdp st1 (pjoin '\\' path_int seg) = .ok (some nn) :=
            win_gcdp_extend new2 ihobj ihdev (fun o ho => (ihvals o ho).2) hgc2
          simp only [hgc1']
          exact ih2
        · rw [ihobj, hext2, List.append_assoc]
          rfl
        · intro o ho
          rcases List.mem_cons.mp ho with h | h
          · rcases h with rfl
            constructor
            · simpa using Nat.pos_iff_ne_zero.mp hnid
            · simpa using hcoid
          · exact ihvals o h
        · rw [ihdev, hdev2]
      · have hgc2 : win_gcdp st (pjoin '\\' path_int seg) = .ok (some z) := by
          rw [win_gcdp_eval hnorm2 hsp2 hd2 hf, win_resolve_append, hres]
          simp [hgch]
        rcases ih st z (pjoin '\\' path_int seg) p0 p1 (pr ++ [seg]) hids hnid hnorm2 hsp2 hd
          (fun sg hsg => hclean sg (List.mem_cons_of_mem _ hsg)) hgc2 with
          ⟨st1, n1, new2, ih1, ih2, ihobj, ihvals, ihdev⟩
        refine ⟨st1, n1, new2, ?_, ?_, ihobj, ihvals, ihdev⟩
        · rw [win_md_loop, if_neg hseg]
          simp only [hgc2]
          exact ih1
        · rw [win_md_loop, if_neg hseg]
          have hgc1' : win_gcdp st1 (pjoin '\\' path_int seg) = .ok (some z) :=
            win_gcdp_extend new2 ihobj ihdev (fun o ho => (ihvals o ho).2) hgc2
          simp only [hgc1']
          exact ih2


/-- `makedirs` on Windows is idempotent whenever the device/storage prefix
resolves (and the model is well-formed: object id 0 is reserved for the
device root and fresh ids are positive): the first call succeeds and the
second call over the resulting state creates nothing, returning the same
state and leaf node. -/
theorem win_makedirs_idem (st : WinDev) (path0 : String)
    (p0 p1 : String) (segs : List String) (c0 : WNode) (ctl : List WNode) (stor : WNode)
    (hids : ∀ o ∈ st.objects, o.object_id ≠ 0)
    (hnid : 0 < st.next_id)
    (hcont : win_get_content st = c0 :: ctl)
    (hsplit : pySplit '\\' (pyReplace '/' '\\' (pyReplace '\\' '\\' path0)) = p0 :: p1 :: segs)
    (hdev : p0 = st.devicename)
    (hp0 : p0.data.isEmpty = false)
    (hp1 : (p1 == "") = false)
    (hstor : (win_get_content st).find? (fun e => e.name == p1) = some stor) :
    ∃ st1 n1, win_makedirs st path0 = .ok (st1, n1) ∧
      win_makedirs st1 path0 = .ok (st1, n1) := by
  have hclp0 := @pySplit_parts_clean (pyReplace '\\' '\\' path0) p0
    (by rw [hsplit]; exact List.mem_cons_self _ _)
  have hclp1 := @pySplit_parts_clean (pyReplace '\\' '\\' path0) p1
    (by rw [hsplit]; exact List.mem_cons_of_mem _ (List.mem_cons_self _ _))
  have hclsegs : ∀ sg ∈ segs, pyReplace '/' '\\' sg = sg ∧ splitChar '\\' sg.data = [sg.data] := by
    intro sg hsg
    exact @pySplit_parts_clean (pyReplace '\\' '\\' path0) sg
      (by rw [hsplit]; exact List.mem_cons_of_mem _ (List.mem_cons_of_mem _ hsg))
  have hnorm1 : pyReplace '/' '\\' (pjoin '\\' p0 p1) = pjoin '\\' p0 p1 := by
    rw [pjoin_nonempty '\\' hp0 p1, pyReplace_append, pyReplace_append, hclp0.1, hclp1.1]
    rfl
  have hsp1 : pySplit '\\' (pjoin '\\' p0 p1) = p0 :: p1 :: [] := by
    rw [pySplit_pjoin hp0 hclp1.2, pySplit_single_of_clean hclp0.2]
    rfl
  have hbeq : (p0 == st.devicename) = true := by
    rw [hdev]
    exact beq_self_eq_true _
  have hgc1 : win_gcdp st (pjoin '\\' p0 p1) = .ok (some stor) := by
    rw [win_gcdp_eval hnorm1 hsp1 hbeq hstor]
    rfl
  rcases win_md_loop_idem segs st stor (pjoin '\\' p0 p1) p0 p1 [] hids hnid hnorm1 hsp1
    hdev hclsegs hgc1 with ⟨st1, n1, new, h1, h2, hobj, hvals, hdevd⟩
  refine ⟨st1, n1, ?_, ?_⟩
  · simp only [win_makedirs, hcont, hsplit, win_md_loop, hp1, Bool.false_eq_true, if_false,
      hgc1]
    exact h1
  · have hcont1 : win_get_content st1 = c0 :: ctl := by
      rw [win_get_content_extend new hobj hdevd (fun o ho => (hvals o ho).2)]
      exact hcont
    have hgc1' : win_gcdp st1 (pjoin '\\' p0 p1) = .ok (some stor) :=
      win_gcdp_extend new hobj hdevd (fun o ho => (hvals o ho).2) hgc1
    simp only [win_makedirs, hcont1, hsplit, win_md_loop, hp1, Bool.false_eq_true, if_false,
      hgc1']
    exact h2

theorem win_gcdp_no_already (st : WinDev) (p : String) :
    win_gcdp st p ≠ .error .alreadyExists := by
  intro h
  simp only [win_gcdp] at h
  rcases hsp : pySplit '\\' (pyReplace '/' '\\' (pyReplace '\\' '\\' p)) with _ | ⟨a, tl⟩
  · simp [hsp] at h
  · rcases tl with _ | ⟨b, rest⟩
    · simp [hsp] at h
    · simp only [hsp] at h
      by_cases hd : (a == st.devicename) = true
      · rw [if_pos hd] at h
        rcases hf : (win_get_content st).find? (fun e => e.name == b) with _ | stor
        · simp [hf] at h
        · simp [hf] at h
      · simp [hd] at h

theorem win_create_no_already (st : WinDev) (n : WNode) (d : String) :
    win_create_content st n d ≠ .error .alreadyExists := by
  intro h
  simp only [win_create_content] at h
  rcases hg : win_get_child ⟨st.devicename,
      st.objects ++ [⟨st.next_id, n.object_id, d, WPD_GUID_FOLDER, 0, none⟩],
      st.next_id + 1⟩ n d with _ | c
  · rw [hg] at h
    simp at h
  · rw [hg] at h
    simp at h

theorem win_md_loop_no_already :
    ∀ (segs : List String) (st : WinDev) (content : WNode) (pi : String),
      win_md_loop st content pi segs ≠ .error .alreadyExists := by
  intro segs
  induction segs with
  | nil =>
    intro st content pi h
    simp [win_md_loop] at h
  | cons d rest ih =>
    intro st content pi h
    by_cases hd : (d == "") = true
    · rw [win_md_loop, if_pos hd] at h
      exact ih st content pi h
    · rw [win_md_loop, if_neg hd] at h
      rcases hg : win_gcdp st (pjoin '\\' pi d) with e | o
      · simp only [hg] at h
        injection h with h2
        rw [h2] at hg
        exact win_gcdp_no_already st _ hg
      · rcases o with _ | z
        · simp only [hg] at h
          rcases hc : win_create_content st content d with e2 | r
          · simp only [hc] at h
            injection h with h2
            rw [h2] at hc
            exact win_create_no_already st content d hc
          · simp only [hc] at h
            exact ih _ _ _ h
        · simp only [hg] at h
          exact ih _ _ _ h

theorem win_makedirs_no_already (st : WinDev) (p : String) :
    win_makedirs st p ≠ .error .alreadyExists := by
  intro h
  simp only [win_makedirs] at h
  rcases hc : win_get_content st with _ | ⟨c0, ctl⟩
  · simp [hc] at h
  · simp only [hc] at h
    rcases hsp : pySplit '\\' (pyReplace '/' '\\' (pyReplace '\\' '\\' p)) with _ | ⟨p0, rest⟩
    · simp [hsp] at h
    · simp only [hsp] at h
      exact win_md_loop_no_already rest st c0 p0 h

theorem linux_mtp_makedirs_no_already (st : MtpDev) (p : String) :
    linux_mtp_makedirs st p ≠ .error .alreadyExists := by
  intro h
  simp only [linux_mtp_makedirs] at h
  rcases hsp : pySplit '/' (pyReplace '\\' '/' p) with _ | ⟨p0, tl⟩
  · simp [hsp] at h
  · rcases tl with _ | ⟨p1, rest⟩
    · simp [hsp] at h
    · simp only [hsp] at h
      by_cases hie : rest.isEmpty = true
      · simp [hie] at h
      · rw [Bool.not_eq_true] at hie
        simp only [hie, Bool.false_eq_true, if_false] at h
        rcases hf : (linux_mtp_get_content st).find?
            (fun stor => stor.full_filename == pjoin '/' p0 p1) with _ | stor
        · simp [hf] at h
        · simp [hf] at h


/-- **C6** (makedirs is idempotent): on every backend, for a path whose
device/storage prefix resolves, after a first successful `makedirs` call a
second call in succession returns the very same filesystem/device state and
the very same leaf node (hence one with the same fullPath and kind), and on
no backend can `makedirs` ever fail with the AlreadyExists error: gvfs
checks existence before creating, and the libmtp and Windows loops
re-resolve each segment and only create the absent ones. -/
theorem C6_makedirs_idempotent
    (fs : FsNode) (d : GDev) (pg : String) (fs1 : FsNode) (ng : LinuxPDC)
    (hgv : linux_gvfs_makedirs fs d pg = .ok (fs1, ng))
    (stm : MtpDev) (pm d0 s0 : String) (msegs : List String) (stor0 : LinuxPDC)
    (hmsplit : pySplit '/' (pyReplace '\\' '/' pm) = d0 :: s0 :: msegs)
    (hmsegs : msegs ≠ [])
    (hmstor : (linux_mtp_get_content stm).find?
      (fun stor => stor.full_filename == pjoin '/' d0 s0) = some stor0)
    (stw : WinDev) (pw p0 p1 : String) (wsegs : List String) (wc0 : WNode)
    (wctl : List WNode) (wstor : WNode)
    (hwids : ∀ o ∈ stw.objects, o.object_id ≠ 0)
    (hwnid : 0 < stw.next_id)
    (hwcont : win_get_content stw = wc0 :: wctl)
    (hwsplit : pySplit '\\' (pyReplace '/' '\\' (pyReplace '\\' '\\' pw)) = p0 :: p1 :: wsegs)
    (hwdev : p0 = stw.devicename)
    (hwp0 : p0.data.isEmpty = false)
    (hwp1 : (p1 == "") = false)
    (hwstor : (win_get_content stw).find? (fun e => e.name == p1) = some wstor) :
    (linux_gvfs_makedirs fs1 d pg = .ok (fs1, ng)
      ∧ ∀ (fs' : FsNode) (d' : GDev) (q : String),
          linux_gvfs_makedirs fs' d' q ≠ .error .alreadyExists)
    ∧ ((∃ st1 n1, linux_mtp_makedirs stm pm = .ok (st1, n1)
          ∧ linux_mtp_makedirs st1 pm = .ok (st1, n1))
      ∧ ∀ (st' : MtpDev) (q : String), linux_mtp_makedirs st' q ≠ .error .alreadyExists)
    ∧ ((∃ st1 n1, win_makedirs stw pw = .ok (st1, n1)
          ∧ win_makedirs st1 pw = .ok (st1, n1))
      ∧ ∀ (st' : WinDev) (q : String), win_makedirs st' q ≠ .error .alreadyExists) :=
  ⟨⟨linux_gvfs_makedirs_idem hgv, linux_gvfs_makedirs_no_already⟩,
    ⟨linux_mtp_makedirs_idem stm pm d0 s0 msegs stor0 hmsplit hmsegs hmstor,
      linux_mtp_makedirs_no_already⟩,
    ⟨win_makedirs_idem stw pw p0 p1 wsegs wc0 wctl wstor hwids hwnid hwcont hwsplit hwdev
        hwp0 hwp1 hwstor,
      win_makedirs_no_already⟩⟩

def c6gd : GDev := ⟨"mtp:host=D"⟩

def c6fs : FsNode := .dir [("mtp:host=D", .dir [("S", .dir [])])]

def c6fs1 : FsNode := .dir [("mtp:host=D", .dir [("S", .dir [("new", .dir [])])])]

def c6ng : LinuxPDC := ⟨"D/S/new", "new", 1, 1, WPD_CONTENT_TYPE_DIRECTORY, -1⟩

def c6md : MtpDev := ⟨"D", [("S", 7)], [], 5⟩

def c6mstor : LinuxPDC :=
  ⟨"D/S", "S", 7, LIBMTP_FILES_AND_FOLDERS_ROOT, WPD_CONTENT_TYPE_STORAGE, -1⟩

def c6wd : WinDev := ⟨"D", [⟨1, 0, "S", WPD_GUID_STORAGE, -1, none⟩], 2⟩

def c6wstor : WNode := ⟨1, "S", WPD_CONTENT_TYPE_STORAGE, "D\\S", -1, ""⟩

theorem C6_witness :
    (linux_gvfs_makedirs c6fs1 c6gd "D\\S\\new" = .ok (c6fs1, c6ng)
      ∧ ∀ (fs' : FsNode) (d' : GDev) (q : String),
          linux_gvfs_makedirs fs' d' q ≠ .error .alreadyExists)
    ∧ ((∃ st1 n1, linux_mtp_makedirs c6md "D\\S\\a\\b" = .ok (st1, n1)
          ∧ linux_mtp_makedirs st1 "D\\S\\a\\b" = .ok (st1, n1))
      ∧ ∀ (st' : MtpDev) (q : String), linux_mtp_makedirs st' q ≠ .error .alreadyExists)
    ∧ ((∃ st1 n1, win_makedirs c6wd "D/S/x" = .ok (st1, n1)
          ∧ win_makedirs st1 "D/S/x" = .ok (st1, n1))
      ∧ ∀ (st' : WinDev) (q : String), win_makedirs st' q ≠ .error .alreadyExists) :=
  C6_makedirs_idempotent c6fs c6gd "D\\S\\new" c6fs1 c6ng (by rfl)
    c6md "D\\S\\a\\b" "D" "S" ["a", "b"] c6mstor (by rfl) (by decide) (by rfl)
    c6wd "D/S/x" "D" "S" ["x"] c6wstor [] c6wstor (by decide) (by decide) (by rfl)
    (by rfl) (by rfl) (by decide) (by decide) (by rfl)
